import Mathlib

/-!
Verification development for the r3f-softbody simulation kernel.

The program under study is the GPU soft-body simulation in
src/src/app/SoftBody.jsx (the multi-body pipeline: posVar compute shader,
shapeShader, bboxShader, onPointerDown) together with the step drivers in
the first part of that file and in src/unnamed/part_000.

Embedding conventions:
* The shader works on float32 vectors.  Pieces that use only field
  arithmetic and comparisons (the collision resolver, the drag picker and
  the driver gravity branch) are embedded over the rationals so that they
  are exactly executable.  The one systematic translation: the shader
  compares Euclidean distances (d < minDist with minDist seeded at 1e6);
  since both sides are nonnegative this order is preserved by squaring,
  so the embedding stores squared distances and seeds the accumulator
  with 1e12.
* Pieces that use sqrt, sin, cos, exp and pi (the force pass, the
  integration step and the shape-matching estimator) are embedded over
  the real numbers.
* Particle indices of a ring of n particles are embedded as ZMod n: the
  shader addresses neighbours as (idx + off + I_N) % I_N, which is
  exactly addition in ZMod n for off in -1..1, and its loops over
  0..I_N-1 become sums over all of ZMod n.
-/

namespace SoftBody

/-! ### Rational 2-D vectors -/

abbrev Vec2Q := ℚ × ℚ

def dotQ (a b : Vec2Q) : ℚ := a.1 * b.1 + a.2 * b.2

def subQ (a b : Vec2Q) : Vec2Q := (a.1 - b.1, a.2 - b.2)

/-- Squared Euclidean distance (the order-preserving square of the
shader's length(nextPos - proj)). -/
def distSq (a b : Vec2Q) : ℚ := (a.1 - b.1) ^ 2 + (a.2 - b.2) ^ 2

/-! ### Collision resolver (posVar shader, lines 612-654)

The polygon of the other body is the list of its previous-tick particle
positions; the loop pairs p_i with p_((i+1) mod N), which is the zip of
the list with its rotation by one. -/

def edgesOf (poly : List Vec2Q) : List (Vec2Q × Vec2Q) :=
  poly.zip (poly.rotate 1)

/-- One iteration of the even-odd ray-casting loop:
if ((a.y > p.y) != (b.y > p.y)) with xCross = mix(a.x, b.x, t),
t = (p.y - a.y) / (b.y - a.y), count when p.x < xCross. -/
def crossesEdge (p : Vec2Q) (e : Vec2Q × Vec2Q) : Bool :=
  let a := e.1
  let b := e.2
  (decide (a.2 > p.2) != decide (b.2 > p.2)) &&
    (let t := (p.2 - a.2) / (b.2 - a.2)
     let xCross := a.1 + t * (b.1 - a.1)
     decide (p.1 < xCross))

def crossingCount (poly : List Vec2Q) (p : Vec2Q) : ℕ :=
  (edgesOf poly).countP (fun e => crossesEdge p e)

/-- The even-odd inside test: odd crossing count. -/
def insidePoly (poly : List Vec2Q) (p : Vec2Q) : Bool :=
  crossingCount poly p % 2 == 1

/-- Candidate point of one edge in the closest-point loop:
t = clamp(dot(ap, ab) / (dot(ab, ab) + 1e-6), 0, 1), proj = a + t * ab.
Note the 1e-6 regularisation of the denominator, taken verbatim from the
shader. -/
def projCand (p : Vec2Q) (e : Vec2Q × Vec2Q) : Vec2Q :=
  let a := e.1
  let ab := subQ e.2 a
  let ap := subQ p a
  let t := min (max (dotQ ap ab / (dotQ ab ab + 1 / 1000000)) 0) 1
  (a.1 + t * ab.1, a.2 + t * ab.2)

/-- The exact clamped projection onto a segment, with no regularisation:
this is the claim-side definition, following the wording of the spec
(clamped projection onto each segment). -/
def specProj (p : Vec2Q) (e : Vec2Q × Vec2Q) : Vec2Q :=
  let a := e.1
  let ab := subQ e.2 a
  let ap := subQ p a
  let t := min (max (dotQ ap ab / dotQ ab ab) 0) 1
  (a.1 + t * ab.1, a.2 + t * ab.2)

/-- Body of the closest-point loop, on the state (minDistSq, newPos);
the shader compares d < minDist on Euclidean distances, embedded here as
squared distances. -/
def closestStep (p : Vec2Q) (s : ℚ × Vec2Q) (e : Vec2Q × Vec2Q) : ℚ × Vec2Q :=
  let proj := projCand p e
  let d := distSq p proj
  if d < s.1 then (d, proj) else s

/-- The closest-point loop: minDist = 1e6, newPos = nextPos, iterate all
edges (squared distances, so the seed is 1e12). -/
def closestLoop (poly : List Vec2Q) (p : Vec2Q) : ℚ × Vec2Q :=
  (edgesOf poly).foldl (closestStep p) ((10 : ℚ) ^ 12, p)

def closestPoint (poly : List Vec2Q) (p : Vec2Q) : Vec2Q :=
  (closestLoop poly p).2

/-- The bbox skip test (negation of
nextPos.x < minP.x || nextPos.x > maxP.x || nextPos.y < minP.y || nextPos.y > maxP.y). -/
def bboxContains (bb : Vec2Q × Vec2Q) (p : Vec2Q) : Bool :=
  !(p.1 < bb.1.1 || p.1 > bb.2.1 || p.2 < bb.1.2 || p.2 > bb.2.2)

/-- One iteration of the per-other-body collision loop, acting on the
particle state (nextPos, vel).  On a hit the shader does
nextPos = mix(nextPos, newPos, 1.0) (that is, newPos exactly) and
vel = vec2(0). -/
def resolveAgainst (bb : Vec2Q × Vec2Q) (poly : List Vec2Q) (s : Vec2Q × Vec2Q) :
    Vec2Q × Vec2Q :=
  if !(bboxContains bb s.1) then s
  else if crossingCount poly s.1 % 2 == 1 then
    (closestPoint poly s.1, ((0 : ℚ), (0 : ℚ)))
  else s

/-- The full collision loop over the other bodies, in index order; the
list holds the bbox and previous-tick polygon of each other body. -/
def resolveAll (others : List ((Vec2Q × Vec2Q) × List Vec2Q)) (s : Vec2Q × Vec2Q) :
    Vec2Q × Vec2Q :=
  others.foldl (fun st ob => resolveAgainst ob.1 ob.2 st) s

/-- Membership of a point on a closed segment (the tie case of the
point-in-polygon claim: the point lies exactly on an edge). -/
def onSeg (x : Vec2Q) (e : Vec2Q × Vec2Q) : Prop :=
  ∃ t : ℚ, 0 ≤ t ∧ t ≤ 1 ∧
    x = (e.1.1 + t * (e.2.1 - e.1.1), e.1.2 + t * (e.2.2 - e.1.2))

/-! ### Drag picking (onPointerDown, SoftBody.jsx lines 961-978)

The handler walks the bodies in index order, selects the first with
centroid-to-pointer squared distance strictly below the squared rest
radius, and keeps -1 when none matches. -/

def hitBody (ms : Vec2Q) (cr : Vec2Q × ℚ) : Bool :=
  decide ((ms.1 - cr.1.1) ^ 2 + (ms.2 - cr.1.2) ^ 2 < cr.2 ^ 2)

def findTargetAux (ms : Vec2Q) : List (Vec2Q × ℚ) → ℤ → ℤ
  | [], _ => -1
  | cr :: rest, k => if hitBody ms cr then k else findTargetAux ms rest (k + 1)

def findTarget (bodies : List (Vec2Q × ℚ)) (ms : Vec2Q) : ℤ :=
  findTargetAux ms bodies 0

/-! ### Driver gravity branch (useSimulationUpdate, SoftBody.jsx lines
213-220 and part_000 lines 285-292; the two drivers have the identical
branch)

Each tick starts by writing the gravity uniform: (0,0) while the drag is
active, (0, cfg.gravityY) otherwise. -/

def tickGravity (active : Bool) (gy : ℚ) : ℚ × ℚ :=
  if active then (0, 0) else (0, gy)

def gravityTrace (seq : List Bool) (gy : ℚ) : List (ℚ × ℚ) :=
  seq.map (fun a => tickGravity a gy)

/-! ### Concrete inputs used by counterexamples and witnesses -/

/-- Triangle polygon (previous-tick positions of a struck body). -/
def cexTri : List Vec2Q := [(0, 0), (4, 0), (0, 4)]

def cexBB : Vec2Q × Vec2Q := ((0, 0), (4, 4))

/-- A predicted position just inside the bottom edge of cexTri. -/
def cexP : Vec2Q := (1, 1 / 1000)

/-- Square polygon for the collision witnesses. -/
def witSq : List Vec2Q := [(0, 0), (2, 0), (2, 2), (0, 2)]

def witBB : Vec2Q × Vec2Q := ((0, 0), (2, 2))

/-! ### Real-valued embedding: force pass, integration, estimator

The posVar compute shader of SoftBody.jsx (multi-body version), lines
531-610, and the shapeShader, lines 662-700.  Everything that touches
sqrt, sin, cos, exp or pi lives here, over the real numbers.  A ring of
n particles is a family of positions and velocities indexed by ZMod n;
the rest offsets (restTex) and the pose (shapeMatchTex translation and
rotation) are further inputs of the per-particle force computation. -/

noncomputable section

def dotR (a b : ℝ × ℝ) : ℝ := a.1 * b.1 + a.2 * b.2

def crossR (a b : ℝ × ℝ) : ℝ := a.1 * b.2 - a.2 * b.1

/-- GLSL length. -/
def vecNorm (v : ℝ × ℝ) : ℝ := Real.sqrt (v.1 ^ 2 + v.2 ^ 2)

/-- GLSL normalize: v / length(v).  (Division by zero is the Lean total
convention; GLSL leaves normalize(0) undefined.) -/
def normalizeR (v : ℝ × ℝ) : ℝ × ℝ := (vecNorm v)⁻¹ • v

/-- The uniforms of the posVar shader. -/
structure Params where
  kSpring : ℝ
  kDampSpring : ℝ
  damping : ℝ
  kPressure : ℝ
  gravity : ℝ × ℝ
  wallK : ℝ
  wallDamp : ℝ
  wallDistance : ℝ
  kShape : ℝ
  kDrag : ℝ
  dragPos : ℝ × ℝ
  dragBody : ℤ

/-- Per-body data read by the shader for one body row: rest radius
(radiusArr), row index, previous-tick positions and velocities
(texturePos), rest offsets (restTex), and the pose row of shapeMatchTex
(translation and rotation). -/
structure BodyState (n : ℕ) where
  radius : ℝ
  bodyIdx : ℤ
  pos : ZMod n → ℝ × ℝ
  vel : ZMod n → ℝ × ℝ
  rest : ZMod n → ℝ × ℝ
  trans : ℝ × ℝ
  rot : ℝ × ℝ

/-- restLen(body) = 2 pi radiusArr[body] / I_N. -/
def restLen (n : ℕ) (r : ℝ) : ℝ := 2 * Real.pi * r / n

/-- areaRest(body) = pi radiusArr[body]^2. -/
def areaRest (r : ℝ) : ℝ := Real.pi * r ^ 2

/-- One neighbour contribution of the structural spring loop:
ab = pb - pa, d = length(ab), dir = ab/d when d > 1e-6 else 0,
Fs = kSpring (d - restLen), Fd = kDampSpring dot(dir, vb - va),
contribution (Fs + Fd) dir. -/
def springContribution (P : Params) (n : ℕ) (r : ℝ) (pa va pb vb : ℝ × ℝ) : ℝ × ℝ :=
  let ab := pb - pa
  let d := vecNorm ab
  let dir := if d > 1 / 1000000 then d⁻¹ • ab else (0, 0)
  let Fs := P.kSpring * (d - restLen n r)
  let Fd := P.kDampSpring * dotR dir (vb - va)
  (Fs + Fd) • dir

/-- Claim-side spring contribution, with dir the unit vector from the
neighbour n to the particle i, as the claim words it. -/
def claimSpringContribution (P : Params) (n : ℕ) (r : ℝ) (pa va pb vb : ℝ × ℝ) : ℝ × ℝ :=
  let d := vecNorm (pb - pa)
  let dir := if d > 1 / 1000000 then d⁻¹ • (pa - pb) else (0, 0)
  let Fs := P.kSpring * (d - restLen n r)
  let Fd := P.kDampSpring * dotR dir (vb - va)
  (Fs + Fd) • dir

/-- The structural spring loop over the two ring neighbours
(off = -1 then off = 1, neighbour index (idx + off + I_N) % I_N). -/
def springTerm (P : Params) (n : ℕ) [NeZero n] (B : BodyState n) (i : ZMod n) : ℝ × ℝ :=
  springContribution P n B.radius (B.pos i) (B.vel i) (B.pos (i - 1)) (B.vel (i - 1)) +
  springContribution P n B.radius (B.pos i) (B.vel i) (B.pos (i + 1)) (B.vel (i + 1))

/-- The shoelace accumulation loop: sum over i of
p_i.x p_(i+1).y - p_(i+1).x p_i.y. -/
def shoelace (n : ℕ) [NeZero n] (pos : ZMod n → ℝ × ℝ) : ℝ :=
  ∑ i : ZMod n, crossR (pos i) (pos (i + 1))

/-- area = 0.5 abs(shoelace). -/
def areaOf (n : ℕ) [NeZero n] (pos : ZMod n → ℝ × ℝ) : ℝ :=
  (1 / 2) * |shoelace n pos|

/-- Internal pressure contribution:
press = kPressure (areaRest - area)/areaRest,
edge = p_(i+1) - p_(i-1), nrm = normalize((edge.y, -edge.x) + 1e-4)
(the scalar 1e-4 is added to both components, verbatim from the shader),
contribution press nrm / F_N. -/
def pressureTerm (P : Params) (n : ℕ) [NeZero n] (B : BodyState n) (i : ZMod n) : ℝ × ℝ :=
  let press := P.kPressure * (areaRest B.radius - areaOf n B.pos) / areaRest B.radius
  let edge := B.pos (i + 1) - B.pos (i - 1)
  let nrm := normalizeR ((edge.2, -edge.1) + ((1 / 10000 : ℝ), (1 / 10000 : ℝ)))
  (press / n) • nrm

/-- wallForce: per-axis penalty springs with damping; right/left are an
if / else-if pair, so are top/bottom. -/
def wallForce (P : Params) (pos vel : ℝ × ℝ) : ℝ × ℝ :=
  let fX : ℝ × ℝ :=
    if pos.1 > P.wallDistance then
      (-(P.wallK * (pos.1 - P.wallDistance))) • ((1 : ℝ), (0 : ℝ)) -
        (P.wallDamp * dotR vel (1, 0)) • ((1 : ℝ), (0 : ℝ))
    else if pos.1 < -P.wallDistance then
      (-(P.wallK * (-P.wallDistance - pos.1))) • ((-1 : ℝ), (0 : ℝ)) -
        (P.wallDamp * dotR vel (-1, 0)) • ((-1 : ℝ), (0 : ℝ))
    else (0, 0)
  let fY : ℝ × ℝ :=
    if pos.2 > P.wallDistance then
      (-(P.wallK * (pos.2 - P.wallDistance))) • ((0 : ℝ), (1 : ℝ)) -
        (P.wallDamp * dotR vel (0, 1)) • ((0 : ℝ), (1 : ℝ))
    else if pos.2 < -P.wallDistance then
      (-(P.wallK * (-P.wallDistance - pos.2))) • ((0 : ℝ), (-1 : ℝ)) -
        (P.wallDamp * dotR vel (0, -1)) • ((0 : ℝ), (-1 : ℝ))
    else (0, 0)
  fX + fY

/-- Shape matching restitution: goal = R q + T, contribution
kShape (goal - pos). -/
def shapeTerm (P : Params) (n : ℕ) [NeZero n] (B : BodyState n) (i : ZMod n) : ℝ × ℝ :=
  let q := B.rest i
  let goal := (B.rot.1 * q.1 - B.rot.2 * q.2, B.rot.2 * q.1 + B.rot.1 * q.2) + B.trans
  P.kShape • (goal - B.pos i)

/-- Drag: only the body whose row equals the dragBody uniform receives
kDrag (dragPos - trans). -/
def dragTerm (P : Params) (n : ℕ) (B : BodyState n) : ℝ × ℝ :=
  if B.bodyIdx = P.dragBody then P.kDrag • (P.dragPos - B.trans) else (0, 0)

/-- The force accumulation without the drag term, in shader order:
spring, pressure, gravity, wall, shape. -/
def baseForce (P : Params) (n : ℕ) [NeZero n] (B : BodyState n) (i : ZMod n) : ℝ × ℝ :=
  springTerm P n B i + pressureTerm P n B i + P.gravity +
    wallForce P (B.pos i) (B.vel i) + shapeTerm P n B i

/-- The full per-particle force accumulation of the shader. -/
def totalForce (P : Params) (n : ℕ) [NeZero n] (B : BodyState n) (i : ZMod n) : ℝ × ℝ :=
  baseForce P n B i + dragTerm P n B

/-- vel += f dt. -/
def velAfterForce (v f : ℝ × ℝ) (dt : ℝ) : ℝ × ℝ := v + dt • f

/-- vel *= exp(-damping dt). -/
def velDamped (P : Params) (dt : ℝ) (v : ℝ × ℝ) : ℝ × ℝ :=
  Real.exp (-P.damping * dt) • v

/-- The velocity after the semi-implicit Euler update of one tick. -/
def stepVel (P : Params) (n : ℕ) [NeZero n] (B : BodyState n) (i : ZMod n) (dt : ℝ) : ℝ × ℝ :=
  velDamped P dt (velAfterForce (B.vel i) (totalForce P n B i) dt)

/-- The predicted position pos + vel dt (before collision resolution). -/
def stepPos (P : Params) (n : ℕ) [NeZero n] (B : BodyState n) (i : ZMod n) (dt : ℝ) : ℝ × ℝ :=
  B.pos i + dt • stepVel P n B i dt

/-! ### Shape-matching estimator (shapeShader) -/

/-- Centroid loop: C = (sum of positions) / I_N. -/
def centroid (n : ℕ) [NeZero n] (pos : ZMod n → ℝ × ℝ) : ℝ × ℝ :=
  ((n : ℝ))⁻¹ • ∑ i : ZMod n, pos i

/-- Covariance A = sum of dot(p_i - C, q_i). -/
def covA (n : ℕ) [NeZero n] (pos rest : ZMod n → ℝ × ℝ) : ℝ :=
  ∑ i : ZMod n,
    ((pos i - centroid n pos).1 * (rest i).1 + (pos i - centroid n pos).2 * (rest i).2)

/-- Covariance B = sum of p.y q.x - p.x q.y with p = pos - C. -/
def covB (n : ℕ) [NeZero n] (pos rest : ZMod n → ℝ × ℝ) : ℝ :=
  ∑ i : ZMod n,
    ((pos i - centroid n pos).2 * (rest i).1 - (pos i - centroid n pos).1 * (rest i).2)

/-- len = max(length(vec2(A,B)), 1e-6). -/
def poseLen (a b : ℝ) : ℝ := max (Real.sqrt (a ^ 2 + b ^ 2)) (1 / 1000000)

/-- The estimator output: (centroid, (cos, sin)) with
cos = A/len, sin = B/len. -/
def shapePose (n : ℕ) [NeZero n] (pos rest : ZMod n → ℝ × ℝ) : (ℝ × ℝ) × (ℝ × ℝ) :=
  (centroid n pos,
    (covA n pos rest / poseLen (covA n pos rest) (covB n pos rest),
     covB n pos rest / poseLen (covA n pos rest) (covB n pos rest)))

/-! ### Rest-shape generator (generateRestPositions / genRest) -/

/-- Offset i of a ring of n points of radius r:
angle = (i / n) pi 2, offset (r cos angle, r sin angle). -/
def genRest (n : ℕ) (r : ℝ) (i : ZMod n) : ℝ × ℝ :=
  (r * Real.cos (((i.val : ℝ) / n) * Real.pi * 2),
   r * Real.sin (((i.val : ℝ) / n) * Real.pi * 2))

/-! ### Concrete real-valued inputs for counterexamples and witnesses -/

/-- The unit square ring used by the pressure counterexample. -/
def sqPos : ZMod 4 → ℝ × ℝ := fun i =>
  if i = 0 then (1, 0) else if i = 1 then (0, 1) else if i = 2 then (-1, 0) else (0, -1)

/-- Parameter set with unit pressure stiffness (other values arbitrary
but fixed). -/
def cexParams : Params :=
  ⟨40, 1, 2, 1, (0, -5), 300, 5, 9 / 10, 300, 0, (0, 0), -1⟩

/-- Body on the unit square, radius 1. -/
def cexBodySq : BodyState 4 :=
  ⟨1, 0, sqPos, fun _ => (0, 0), fun _ => (0, 0), (0, 0), (1, 0)⟩

/-- The same ring with the winding reversed. -/
def cexBodySqRev : BodyState 4 :=
  ⟨1, 0, fun i => sqPos (-i), fun _ => (0, 0), fun _ => (0, 0), (0, 0), (1, 0)⟩

/-- All-zero stiffness parameters with gravity (0,-1): isolates the
gravity term. -/
def zeroParams : Params :=
  ⟨0, 0, 2, 0, (0, -1), 0, 0, 9 / 10, 0, 0, (0, 0), -1⟩

/-- A body placed on the unit square with zero velocities. -/
def zeroBody : BodyState 4 :=
  ⟨1, 0, sqPos, fun _ => (0, 0), sqPos, (0, 0), (1, 0)⟩

/-- Parameter set whose drag target is body 0. -/
def dragParams : Params :=
  ⟨40, 1, 2, 80, (0, -5), 300, 5, 9 / 10, 300, 20, (1 / 2, 1 / 3), 0⟩

/-- Two-particle configuration for the estimator witness. -/
def pose2Pos : ZMod 2 → ℝ × ℝ := fun i => if i = 0 then (1, 0) else (-1, 0)

/-- Its rest offsets (the same pair). -/
def pose2Rest : ZMod 2 → ℝ × ℝ := fun i => if i = 0 then (1, 0) else (-1, 0)

/-- The angle of rest offset i in a 32-point ring (the equilibrium
analysis of the default multi-body configuration is carried out at
I_N = 32, the default numPoints). -/
def thetaZ (i : ZMod 32) : ℝ := ((i.val : ℝ) / ((32 : ℕ) : ℝ)) * Real.pi * 2

/-- Default-valued parameters for the equilibrium witness: kSpring 40,
kPressure 80, kShape 300, zero gravity, wall distance 0.9, no drag
target. -/
def eqParams : Params :=
  ⟨40, 1, 2, 80, (0, 0), 300, 5, 9 / 10, 300, 0, (0, 0), -1⟩

/-- A 32-point body of radius 0.25 sitting exactly on its rest shape at
the origin, with zero velocities and the pose computed by the estimator
from those positions. -/
def eqBody : BodyState 32 :=
  ⟨1 / 4, 0,
   fun j => ((0 : ℝ), (0 : ℝ)) + genRest 32 (1 / 4) j,
   fun _ => 0,
   genRest 32 (1 / 4),
   (shapePose 32 (fun j => ((0 : ℝ), (0 : ℝ)) + genRest 32 (1 / 4) j)
     (genRest 32 (1 / 4))).1,
   (shapePose 32 (fun j => ((0 : ℝ), (0 : ℝ)) + genRest 32 (1 / 4) j)
     (genRest 32 (1 / 4))).2⟩

end

/-! ## Theorems -/

/-! ### Closest-point loop lemmas -/

theorem closest_foldl_spec (p : Vec2Q) (l : List (Vec2Q × Vec2Q)) (s : ℚ × Vec2Q) :
    (∀ e ∈ l, (l.foldl (closestStep p) s).1 ≤ distSq p (projCand p e)) ∧
    (l.foldl (closestStep p) s).1 ≤ s.1 ∧
    (l.foldl (closestStep p) s = s ∨
      ∃ e ∈ l, (l.foldl (closestStep p) s).2 = projCand p e ∧
        (l.foldl (closestStep p) s).1 = distSq p (projCand p e)) := by
  induction l generalizing s with
  | nil => simp
  | cons e t ih =>
    rw [List.foldl_cons]
    by_cases h : distSq p (projCand p e) < s.1
    · have hs1 : closestStep p s e = (distSq p (projCand p e), projCand p e) := by
        simp [closestStep, h]
      rw [hs1]
      obtain ⟨ihmin, ihle, ihcase⟩ := ih (distSq p (projCand p e), projCand p e)
      refine ⟨?_, ?_, ?_⟩
      · intro e2 he2
        rcases List.mem_cons.mp he2 with rfl | he2
        · exact ihle
        · exact ihmin e2 he2
      · exact le_trans ihle (le_of_lt h)
      · rcases ihcase with hcase | ⟨e2, he2, hcase⟩
        · exact Or.inr ⟨e, List.mem_cons_self e t, by rw [hcase]; exact ⟨rfl, rfl⟩⟩
        · exact Or.inr ⟨e2, List.mem_cons_of_mem e he2, hcase⟩
    · have hs1 : closestStep p s e = s := by
        simp [closestStep, h]
      rw [hs1]
      obtain ⟨ihmin, ihle, ihcase⟩ := ih s
      refine ⟨?_, ihle, ?_⟩
      · intro e2 he2
        rcases List.mem_cons.mp he2 with rfl | he2
        · exact le_trans ihle (le_of_not_lt h)
        · exact ihmin e2 he2
      · rcases ihcase with hcase | ⟨e2, he2, hcase⟩
        · exact Or.inl hcase
        · exact Or.inr ⟨e2, List.mem_cons_of_mem e he2, hcase⟩

theorem closestLoop_hit (poly : List Vec2Q) (p : Vec2Q)
    (hnear : ∃ e ∈ edgesOf poly, distSq p (projCand p e) < 10 ^ 12) :
    (∃ e ∈ edgesOf poly, closestPoint poly p = projCand p e) ∧
    ∀ e ∈ edgesOf poly, distSq p (closestPoint poly p) ≤ distSq p (projCand p e) := by
  obtain ⟨e0, he0, hd0⟩ := hnear
  obtain ⟨hmin, _, hcase⟩ :=
    closest_foldl_spec p (edgesOf poly) ((10 : ℚ) ^ 12, p)
  rcases hcase with hcase | ⟨e, he, h2, h1⟩
  · exfalso
    have h0 := hmin e0 he0
    rw [hcase] at h0
    exact absurd (lt_of_le_of_lt h0 hd0) (lt_irrefl _)
  · constructor
    · exact ⟨e, he, h2⟩
    · intro e2 he2
      have h3 := hmin e2 he2
      show distSq p (List.foldl (closestStep p) ((10 : ℚ) ^ 12, p) (edgesOf poly)).2 ≤ _
      rw [h2, ← h1]
      exact h3

theorem projCand_onSeg (p : Vec2Q) (e : Vec2Q × Vec2Q) : onSeg (projCand p e) e := by
  refine ⟨min (max (dotQ (subQ p e.1) (subQ e.2 e.1) /
    (dotQ (subQ e.2 e.1) (subQ e.2 e.1) + 1 / 1000000)) 0) 1, ?_, ?_, ?_⟩
  · exact le_min (le_max_right _ 0) zero_le_one
  · exact min_le_right _ 1
  · simp only [projCand, subQ]

/-! ### Claim C1 -/

/-- Claim C1 as frozen, refuted at a concrete input: the predicted
position cexP lies inside the bbox of cexTri and the even-odd count is
odd, the closest point among the exact clamped projections of cexP onto
the edges of cexTri is (1, 0) (strictly closer than every other
projection), yet the resolver does not move the particle there: because
the shader divides by dot(ab, ab) + 1e-6, its snap point is
(16000000/16000001, 0), not (1, 0). -/
theorem collision_snaps_to_closest_projection_cex :
    bboxContains cexBB cexP = true ∧
    crossingCount cexTri cexP % 2 = 1 ∧
    ((1 : ℚ), (0 : ℚ)) ∈ (edgesOf cexTri).map (specProj cexP) ∧
    (∀ q ∈ (edgesOf cexTri).map (specProj cexP),
      q = ((1 : ℚ), (0 : ℚ)) ∨ distSq cexP ((1 : ℚ), (0 : ℚ)) < distSq cexP q) ∧
    (resolveAgainst cexBB cexTri (cexP, (3, 4))).1 ≠ ((1 : ℚ), (0 : ℚ)) := by
  refine ⟨?_, ?_, ?_, ?_, ?_⟩
  · norm_num [bboxContains, cexBB, cexP]
  · norm_num [crossingCount, edgesOf, cexTri, cexP, List.rotate, crossesEdge]
  · norm_num [edgesOf, cexTri, cexP, List.rotate, specProj, subQ, dotQ]
  · norm_num [edgesOf, cexTri, cexP, List.rotate, specProj, subQ, dotQ, distSq]
  · norm_num [resolveAgainst, bboxContains, cexBB, cexTri, cexP, crossingCount, edgesOf,
      List.rotate, crossesEdge, closestPoint, closestLoop, closestStep, projCand, subQ,
      dotQ, distSq]

/-- Claim C1 (amended): the resolver skips a body whose bounding box does
not contain the predicted position, leaves the particle unchanged when
the even-odd count is even, and on an odd count zeroes the velocity and
snaps the position to the closest point among the 1e-6-regularised
clamped projections onto that body's edges (projection parameter
dot(ap,ab)/(dot(ab,ab)+1e-6), clamped to [0,1]); the struck body's own
particles are untouched, the resolver being a pure function of the
moving particle's state.  The snap characterisation assumes some edge
projection is within the shader's 1e6 seed distance (1e12 squared). -/
theorem collision_resolver_amended (bb : Vec2Q × Vec2Q) (poly : List Vec2Q) (p v : Vec2Q) :
    (bboxContains bb p = false → resolveAgainst bb poly (p, v) = (p, v)) ∧
    (bboxContains bb p = true → crossingCount poly p % 2 ≠ 1 →
      resolveAgainst bb poly (p, v) = (p, v)) ∧
    (bboxContains bb p = true → crossingCount poly p % 2 = 1 →
      (resolveAgainst bb poly (p, v)).2 = (0, 0) ∧
      ((∃ e ∈ edgesOf poly, distSq p (projCand p e) < 10 ^ 12) →
        (∃ e ∈ edgesOf poly, (resolveAgainst bb poly (p, v)).1 = projCand p e) ∧
        ∀ e ∈ edgesOf poly,
          distSq p (resolveAgainst bb poly (p, v)).1 ≤ distSq p (projCand p e))) := by
  refine ⟨?_, ?_, ?_⟩
  · intro h
    simp [resolveAgainst, h]
  · intro hbb hodd
    have : (crossingCount poly p % 2 == 1) = false := by
      simpa using hodd
    simp [resolveAgainst, hbb, this]
  · intro hbb hodd
    have hres : resolveAgainst bb poly (p, v) = (closestPoint poly p, ((0 : ℚ), (0 : ℚ))) := by
      have : (crossingCount poly p % 2 == 1) = true := by simpa using hodd
      simp [resolveAgainst, hbb, this]
    refine ⟨by rw [hres], ?_⟩
    intro hnear
    obtain ⟨hex, hmin⟩ := closestLoop_hit poly p hnear
    rw [hres]
    exact ⟨hex, hmin⟩

/-- Witness for collision_resolver_amended at a concrete square and
interior point. -/
theorem collision_resolver_amended_witness :
    (resolveAgainst witBB witSq ((1 / 2, 1), (3, 4))).2 = (0, 0) ∧
    (∃ e ∈ edgesOf witSq, (resolveAgainst witBB witSq ((1 / 2, 1), (3, 4))).1 =
      projCand (1 / 2, 1) e) := by
  have h := collision_resolver_amended witBB witSq (1 / 2, 1) (3, 4)
  have h3 := h.2.2 (by norm_num [bboxContains, witBB])
    (by norm_num [crossingCount, edgesOf, witSq, List.rotate, crossesEdge])
  refine ⟨h3.1, (h3.2 ⟨((0, 0), (2, 0)), ?_, ?_⟩).1⟩
  · norm_num [edgesOf, witSq, List.rotate]
  · norm_num [distSq, projCand, subQ, dotQ]

/-! ### Claim C2 -/

/-- Claim C2: re-running the even-odd inside test on the corrected
position returns false, except in the tie case where the corrected
position lies exactly on an edge of the struck polygon.  Proved through
the tie disjunct: the snap point is a clamped projection, hence always
lies exactly on one of the edges (so the carve-out of the claim always
applies; the unconditional false branch does not hold on its own). -/
theorem corrected_point_not_inside (bb : Vec2Q × Vec2Q) (poly : List Vec2Q) (p v : Vec2Q)
    (hbb : bboxContains bb p = true) (hodd : crossingCount poly p % 2 = 1)
    (hnear : ∃ e ∈ edgesOf poly, distSq p (projCand p e) < 10 ^ 12) :
    insidePoly poly (resolveAgainst bb poly (p, v)).1 = false ∨
    ∃ e ∈ edgesOf poly, onSeg (resolveAgainst bb poly (p, v)).1 e := by
  right
  have hres : (resolveAgainst bb poly (p, v)).1 = closestPoint poly p := by
    have : (crossingCount poly p % 2 == 1) = true := by simpa using hodd
    simp [resolveAgainst, hbb, this]
  obtain ⟨⟨e, he, heq⟩, _⟩ := closestLoop_hit poly p hnear
  refine ⟨e, he, ?_⟩
  rw [hres, heq]
  exact projCand_onSeg p e

/-- Witness for corrected_point_not_inside at a concrete square. -/
theorem corrected_point_not_inside_witness :
    insidePoly [((0 : ℚ), (0 : ℚ)), (3, 0), (3, 3), (0, 3)]
      (resolveAgainst ((0, 0), (3, 3)) [(0, 0), (3, 0), (3, 3), (0, 3)] ((1, 1), (0, 0))).1
      = false ∨
    ∃ e ∈ edgesOf [((0 : ℚ), (0 : ℚ)), (3, 0), (3, 3), (0, 3)],
      onSeg (resolveAgainst ((0, 0), (3, 3)) [(0, 0), (3, 0), (3, 3), (0, 3)]
        ((1, 1), (0, 0))).1 e := by
  exact corrected_point_not_inside ((0, 0), (3, 3)) [(0, 0), (3, 0), (3, 3), (0, 3)]
    (1, 1) (0, 0) (by norm_num [bboxContains])
    (by norm_num [crossingCount, edgesOf, List.rotate, crossesEdge])
    ⟨((0, 0), (3, 0)), by norm_num [edgesOf, List.rotate],
      by norm_num [distSq, projCand, subQ, dotQ]⟩

/-! ### Claim C9 -/

theorem findTargetAux_none (ms : Vec2Q) (l : List (Vec2Q × ℚ))
    (h : ∀ cr ∈ l, hitBody ms cr = false) : ∀ k, findTargetAux ms l k = -1 := by
  induction l with
  | nil => intro k; rfl
  | cons cr rest ih =>
    intro k
    have hcr : hitBody ms cr = false := h cr (List.mem_cons_self cr rest)
    rw [findTargetAux, hcr]
    simp only [Bool.false_eq_true, if_false]
    exact ih (fun c hc => h c (List.mem_cons_of_mem cr hc)) (k + 1)

theorem findTargetAux_first (ms : Vec2Q) :
    ∀ (l : List (Vec2Q × ℚ)) (j : ℕ) (hj : j < l.length),
      hitBody ms (l.get ⟨j, hj⟩) = true →
      (∀ j2 (hj2 : j2 < l.length), j2 < j → hitBody ms (l.get ⟨j2, hj2⟩) = false) →
      ∀ k, findTargetAux ms l k = k + j := by
  intro l
  induction l with
  | nil => intro j hj; exact absurd hj (Nat.not_lt_zero j)
  | cons cr rest ih =>
    intro j hj hhit hmiss k
    cases j with
    | zero =>
      rw [findTargetAux]
      have : hitBody ms cr = true := hhit
      rw [this]
      simp
    | succ j0 =>
      have hcr : hitBody ms cr = false := by
        have := hmiss 0 (Nat.succ_pos _) (Nat.succ_pos j0)
        exact this
      rw [findTargetAux, hcr]
      simp only [Bool.false_eq_true, if_false]
      have hrec := ih j0 (Nat.lt_of_succ_lt_succ hj) hhit
        (fun j2 hj2 hlt => hmiss (j2 + 1) (Nat.succ_lt_succ hj2) (Nat.succ_lt_succ hlt))
        (k + 1)
      rw [hrec]
      push_cast
      ring

/-- Claim C9: on pointer-down the drag controller walks the bodies in
index order and records the first body whose centroid-to-pointer distance
is strictly less than its rest radius (first match, not closest match),
or -1 when no body matches; in the concrete scenario the pointer lies
within the radius of body 0 and outside the radius of body 1, and body 0
is selected. -/
theorem drag_target_first_match :
    (∀ (bodies : List (Vec2Q × ℚ)) (ms : Vec2Q),
      (∀ cr ∈ bodies, hitBody ms cr = false) → findTarget bodies ms = -1) ∧
    (∀ (bodies : List (Vec2Q × ℚ)) (ms : Vec2Q) (j : ℕ) (hj : j < bodies.length),
      hitBody ms (bodies.get ⟨j, hj⟩) = true →
      (∀ j2 (hj2 : j2 < bodies.length), j2 < j →
        hitBody ms (bodies.get ⟨j2, hj2⟩) = false) →
      findTarget bodies ms = j) ∧
    (findTarget [(((-2 : ℚ), (0 : ℚ)), (1 : ℚ)), ((5, 0), 1)] (-3 / 2, 0) = 0 ∧
      hitBody ((-3 / 2 : ℚ), (0 : ℚ)) (((5 : ℚ), (0 : ℚ)), (1 : ℚ)) = false) := by
  refine ⟨?_, ?_, by norm_num [findTarget, findTargetAux, hitBody],
    by norm_num [hitBody]⟩
  · intro bodies ms h
    exact findTargetAux_none ms bodies h 0
  · intro bodies ms j hj hhit hmiss
    have := findTargetAux_first ms bodies j hj hhit hmiss 0
    rw [findTarget, this]
    ring

/-- Witness for drag_target_first_match: the first-match clause applied
at an explicit list of bodies. -/
theorem drag_target_first_match_witness :
    findTarget [(((0 : ℚ), (0 : ℚ)), (2 : ℚ)), ((9, 9), 1)] (1, 0) = 0 := by
  exact drag_target_first_match.2.1 [(((0 : ℚ), (0 : ℚ)), (2 : ℚ)), ((9, 9), 1)] (1, 0)
    0 (by norm_num) (by norm_num [hitBody, List.get])
    (fun j2 hj2 hlt => absurd hlt (Nat.not_lt_zero j2))

/-! ### Claim C10 -/

/-- Claim C10: in the single-body and uniform-array step drivers, a tick
that begins with the drag active supplies gravity (0,0) to the force
pass, whatever the configured gravity is, and any tick with the drag
inactive (in particular the first tick after a drag ends) supplies the
configured (0, gravityY). -/
theorem drag_disables_gravity :
    (∀ (seq : List Bool) (gy : ℚ) (t : ℕ),
      seq[t]? = some true → (gravityTrace seq gy)[t]? = some (0, 0)) ∧
    (∀ (seq : List Bool) (gy : ℚ) (t : ℕ),
      seq[t]? = some false → (gravityTrace seq gy)[t]? = some (0, gy)) := by
  constructor
  · intro seq gy t h
    rw [gravityTrace, List.getElem?_map, h]
    rfl
  · intro seq gy t h
    rw [gravityTrace, List.getElem?_map, h]
    rfl

/-- Witness for drag_disables_gravity: a two-tick trace, dragging on the
first tick and released on the second. -/
theorem drag_disables_gravity_witness :
    (gravityTrace [true, false] (-5))[0]? = some ((0 : ℚ), (0 : ℚ)) ∧
    (gravityTrace [true, false] (-5))[1]? = some ((0 : ℚ), (-5 : ℚ)) := by
  exact ⟨drag_disables_gravity.1 [true, false] (-5) 0 rfl,
    drag_disables_gravity.2 [true, false] (-5) 1 rfl⟩

/-! ### Euclidean norm lemmas for the real embedding -/

theorem vecNorm_nonneg (v : ℝ × ℝ) : 0 ≤ vecNorm v := Real.sqrt_nonneg _

theorem vecNorm_smul (t : ℝ) (v : ℝ × ℝ) : vecNorm (t • v) = |t| * vecNorm v := by
  have h1 : (t • v).1 = t * v.1 := rfl
  have h2 : (t • v).2 = t * v.2 := rfl
  rw [vecNorm, h1, h2, show (t * v.1) ^ 2 + (t * v.2) ^ 2 = t ^ 2 * (v.1 ^ 2 + v.2 ^ 2) by ring,
    Real.sqrt_mul (sq_nonneg t), Real.sqrt_sq_eq_abs, vecNorm]

theorem vecNorm_neg (v : ℝ × ℝ) : vecNorm (-v) = vecNorm v := by
  have h1 : (-v).1 = -v.1 := rfl
  have h2 : (-v).2 = -v.2 := rfl
  rw [vecNorm, h1, h2, vecNorm]
  ring_nf

theorem vecNorm_pos_of_ne (v : ℝ × ℝ) (h : v ≠ 0) : 0 < vecNorm v := by
  apply Real.sqrt_pos.mpr
  have hne : v.1 ≠ 0 ∨ v.2 ≠ 0 := by
    by_contra hc
    push_neg at hc
    exact h (Prod.ext hc.1 hc.2)
  rcases hne with h1 | h1
  · nlinarith [pow_two_pos_of_ne_zero h1, sq_nonneg v.2]
  · nlinarith [pow_two_pos_of_ne_zero h1, sq_nonneg v.1]

theorem norm_normalizeR (v : ℝ × ℝ) (h : v ≠ 0) : vecNorm (normalizeR v) = 1 := by
  have hp := vecNorm_pos_of_ne v h
  rw [normalizeR, vecNorm_smul, abs_inv, abs_of_pos hp]
  field_simp

theorem dot_le_sqrt_mul (a1 a2 b1 b2 : ℝ) :
    a1 * b1 + a2 * b2 ≤ Real.sqrt (a1 ^ 2 + a2 ^ 2) * Real.sqrt (b1 ^ 2 + b2 ^ 2) := by
  have h1 : (a1 * b1 + a2 * b2) ^ 2 ≤ (a1 ^ 2 + a2 ^ 2) * (b1 ^ 2 + b2 ^ 2) := by
    nlinarith [sq_nonneg (a1 * b2 - a2 * b1)]
  calc a1 * b1 + a2 * b2 ≤ |a1 * b1 + a2 * b2| := le_abs_self _
    _ = Real.sqrt ((a1 * b1 + a2 * b2) ^ 2) := (Real.sqrt_sq_eq_abs _).symm
    _ ≤ Real.sqrt ((a1 ^ 2 + a2 ^ 2) * (b1 ^ 2 + b2 ^ 2)) := Real.sqrt_le_sqrt h1
    _ = Real.sqrt (a1 ^ 2 + a2 ^ 2) * Real.sqrt (b1 ^ 2 + b2 ^ 2) :=
      Real.sqrt_mul (by positivity) _

theorem vecNorm_add_le (a b : ℝ × ℝ) : vecNorm (a + b) ≤ vecNorm a + vecNorm b := by
  have h1 : (a + b).1 = a.1 + b.1 := rfl
  have h2 : (a + b).2 = a.2 + b.2 := rfl
  have key : (a + b).1 ^ 2 + (a + b).2 ^ 2 =
      (a.1 ^ 2 + a.2 ^ 2) + 2 * (a.1 * b.1 + a.2 * b.2) + (b.1 ^ 2 + b.2 ^ 2) := by
    rw [h1, h2]; ring
  have hs : (0 : ℝ) ≤ Real.sqrt (a.1 ^ 2 + a.2 ^ 2) + Real.sqrt (b.1 ^ 2 + b.2 ^ 2) := by
    positivity
  have hX : (a + b).1 ^ 2 + (a + b).2 ^ 2 ≤
      (Real.sqrt (a.1 ^ 2 + a.2 ^ 2) + Real.sqrt (b.1 ^ 2 + b.2 ^ 2)) ^ 2 := by
    have hc := dot_le_sqrt_mul a.1 a.2 b.1 b.2
    have ha : Real.sqrt (a.1 ^ 2 + a.2 ^ 2) ^ 2 = a.1 ^ 2 + a.2 ^ 2 :=
      Real.sq_sqrt (by positivity)
    have hb : Real.sqrt (b.1 ^ 2 + b.2 ^ 2) ^ 2 = b.1 ^ 2 + b.2 ^ 2 :=
      Real.sq_sqrt (by positivity)
    rw [key]
    nlinarith [hc, ha, hb]
  calc vecNorm (a + b) = Real.sqrt ((a + b).1 ^ 2 + (a + b).2 ^ 2) := rfl
    _ ≤ Real.sqrt ((Real.sqrt (a.1 ^ 2 + a.2 ^ 2) + Real.sqrt (b.1 ^ 2 + b.2 ^ 2)) ^ 2) :=
      Real.sqrt_le_sqrt hX
    _ = |Real.sqrt (a.1 ^ 2 + a.2 ^ 2) + Real.sqrt (b.1 ^ 2 + b.2 ^ 2)| :=
      Real.sqrt_sq_eq_abs _
    _ = vecNorm a + vecNorm b := abs_of_nonneg hs

theorem vecNorm_add_three_le (a b c : ℝ × ℝ) :
    vecNorm (a + b + c) ≤ vecNorm a + vecNorm b + vecNorm c := by
  calc vecNorm (a + b + c) ≤ vecNorm (a + b) + vecNorm c := vecNorm_add_le _ _
    _ ≤ vecNorm a + vecNorm b + vecNorm c := by
      have := vecNorm_add_le a b
      linarith

theorem sub_vecNorm_le_add (a b : ℝ × ℝ) : vecNorm a - vecNorm b ≤ vecNorm (a + b) := by
  have h := vecNorm_add_le (a + b) (-b)
  have h2 : a + b + -b = a := by ring
  rw [h2, vecNorm_neg] at h
  linarith

/-! ### Claim C3 -/

theorem vecNorm_simple_unit : vecNorm (((1 : ℝ), (0 : ℝ)) - (0, 0)) = 1 := by
  have h1 : (((1 : ℝ), (0 : ℝ)) - (0, 0)).1 = 1 := by norm_num
  have h2 : (((1 : ℝ), (0 : ℝ)) - (0, 0)).2 = 0 := by norm_num
  rw [vecNorm, h1, h2]
  norm_num

/-- Claim C3 as frozen, refuted at a concrete input: with the particle
at the origin, its neighbour at (1,0), both at rest, kSpring = 40,
kDampSpring = 1 and restLen = 0, the shader adds (40, 0) (pulling the
stretched particle toward its neighbour), whereas with dir taken as the
unit vector from the neighbour n to the particle i, as the claim states,
the contribution would be (-40, 0). -/
theorem spring_direction_cex :
    springContribution cexParams 4 0 (0, 0) (0, 0) (1, 0) (0, 0) = ((40 : ℝ), 0) ∧
    claimSpringContribution cexParams 4 0 (0, 0) (0, 0) (1, 0) (0, 0) = ((-40 : ℝ), 0) ∧
    springContribution cexParams 4 0 (0, 0) (0, 0) (1, 0) (0, 0) ≠
      claimSpringContribution cexParams 4 0 (0, 0) (0, 0) (1, 0) (0, 0) := by
  have hd := vecNorm_simple_unit
  have hlen : restLen 4 (0 : ℝ) = 0 := by
    rw [restLen]; norm_num
  refine ⟨?_, ?_, ?_⟩
  · rw [springContribution]
    simp only [hd, hlen]
    rw [if_pos (by norm_num)]
    norm_num [cexParams, dotR, Prod.ext_iff]
  · rw [claimSpringContribution]
    simp only [hd, hlen]
    rw [if_pos (by norm_num)]
    norm_num [cexParams, dotR, Prod.ext_iff]
  · intro hcontra
    rw [springContribution, claimSpringContribution] at hcontra
    simp only [hd, hlen] at hcontra
    rw [if_pos (by norm_num), if_pos (by norm_num)] at hcontra
    norm_num [cexParams, dotR, Prod.ext_iff] at hcontra

/-- Claim C3 (amended): for each ring neighbour, with d the distance and
dir the unit vector from the particle i toward its neighbour n (not from
n to i), the added contribution is (Fs + Fd) dir with
Fs = kSpring (d - restLen) and Fd = kDampSpring dot(dir, v_n - v_i);
when d is at or below the 1e-6 guard the direction is zero and so is the
contribution; the direction is genuinely unit length above the guard. -/
theorem spring_contribution_amended (P : Params) (n : ℕ) (r : ℝ) (pa va pb vb : ℝ × ℝ) :
    (vecNorm (pb - pa) ≤ 1 / 1000000 → springContribution P n r pa va pb vb = (0, 0)) ∧
    (1 / 1000000 < vecNorm (pb - pa) →
      springContribution P n r pa va pb vb =
        (P.kSpring * (vecNorm (pb - pa) - restLen n r) +
          P.kDampSpring * dotR ((vecNorm (pb - pa))⁻¹ • (pb - pa)) (vb - va)) •
          ((vecNorm (pb - pa))⁻¹ • (pb - pa)) ∧
      vecNorm ((vecNorm (pb - pa))⁻¹ • (pb - pa)) = 1) := by
  constructor
  · intro h
    rw [springContribution]
    rw [if_neg (by simpa using not_lt.mpr h)]
    simp [Prod.ext_iff]
  · intro h
    have hpos : 0 < vecNorm (pb - pa) := lt_trans (by norm_num) h
    constructor
    · rw [springContribution]
      rw [if_pos (by simpa using h)]
    · rw [vecNorm_smul, abs_inv, abs_of_pos hpos]
      field_simp

/-- Witness for spring_contribution_amended at a unit-length spring. -/
theorem spring_contribution_amended_witness :
    vecNorm ((vecNorm (((1 : ℝ), (0 : ℝ)) - (0, 0)))⁻¹ • (((1 : ℝ), (0 : ℝ)) - (0, 0))) = 1 := by
  have h := (spring_contribution_amended cexParams 4 1 (0, 0) (0, 0) (1, 0) (0, 0)).2
    (by rw [vecNorm_simple_unit]; norm_num)
  exact h.2

/-! ### Claim C6 -/

/-- Claim C6: one tick integrates by semi-implicit Euler in the shader
order (force into velocity, then exponential damping, then position from
the damped velocity), and with every stiffness coefficient zero the
accumulated force collapses to the gravity vector, so that from rest
with gravity (0,-1) and dt = 0.01 the pre-damping velocity is exactly
(0, -0.01). -/
theorem semi_implicit_euler (P : Params) (n : ℕ) [NeZero n] (B : BodyState n) (i : ZMod n)
    (dt : ℝ)
    (h1 : P.kSpring = 0) (h2 : P.kDampSpring = 0) (h3 : P.kPressure = 0)
    (h4 : P.wallK = 0) (h5 : P.wallDamp = 0) (h6 : P.kShape = 0) (h7 : P.kDrag = 0) :
    totalForce P n B i = P.gravity ∧
    stepVel P n B i dt = Real.exp (-P.damping * dt) • (B.vel i + dt • P.gravity) ∧
    stepPos P n B i dt = B.pos i + dt • stepVel P n B i dt ∧
    (B.vel i = 0 → P.gravity = (0, -1) → dt = 1 / 100 →
      velAfterForce (B.vel i) (totalForce P n B i) dt = (0, -1 / 100)) := by
  have hspring : ∀ pa va pb vb, springContribution P n B.radius pa va pb vb = 0 := by
    intro pa va pb vb
    rw [springContribution]
    simp [h1, h2]
  have hforce : totalForce P n B i = P.gravity := by
    rw [totalForce, baseForce, springTerm, hspring, hspring, pressureTerm, wallForce,
      shapeTerm, dragTerm]
    rw [h3, h5, h4, h6, h7]
    split_ifs <;> simp
  refine ⟨hforce, ?_, rfl, ?_⟩
  · rw [stepVel, velDamped, velAfterForce, hforce]
  · intro hv hg hdt
    rw [velAfterForce, hforce, hv, hg, hdt]
    have : ((1 : ℝ) / 100) • (((0 : ℝ), (-1 : ℝ))) = ((0 : ℝ), (-1 / 100 : ℝ)) := by
      rw [Prod.smul_mk]
      norm_num
    rw [this, zero_add]

/-- Witness for semi_implicit_euler: the all-zero-stiffness parameter
set acting on the square body at rest. -/
theorem semi_implicit_euler_witness :
    velAfterForce (zeroBody.vel 0) (totalForce zeroParams 4 zeroBody 0) (1 / 100) =
      (0, -1 / 100) := by
  exact (semi_implicit_euler zeroParams 4 zeroBody 0 (1 / 100)
    rfl rfl rfl rfl rfl rfl rfl).2.2.2 rfl rfl rfl

/-! ### Claim C8 -/

/-- Claim C8: the drag force kDrag (dragPos - centroid) enters the force
accumulation only for the body whose index equals the active drag
target, it is the same centroid-based vector for every particle of that
body (the difference between the full force and the drag-free force does
not depend on the particle), and particles of non-target bodies receive
no drag force at all. -/
theorem drag_force_targeting (P : Params) (n : ℕ) [NeZero n] (B : BodyState n) (i : ZMod n) :
    (B.bodyIdx ≠ P.dragBody → totalForce P n B i = baseForce P n B i) ∧
    (B.bodyIdx = P.dragBody →
      totalForce P n B i = baseForce P n B i + P.kDrag • (P.dragPos - B.trans)) ∧
    (∀ j : ZMod n, totalForce P n B i - baseForce P n B i =
      totalForce P n B j - baseForce P n B j) := by
  refine ⟨?_, ?_, ?_⟩
  · intro h
    rw [totalForce, dragTerm, if_neg h]
    simp
  · intro h
    rw [totalForce, dragTerm, if_pos h]
  · intro j
    rw [totalForce, totalForce, add_sub_cancel_left, add_sub_cancel_left]

/-- Witness for drag_force_targeting: body 0 is the drag target of
dragParams and receives exactly the centroid-based pull. -/
theorem drag_force_targeting_witness :
    totalForce dragParams 4 cexBodySq 0 =
      baseForce dragParams 4 cexBodySq 0 +
        dragParams.kDrag • (dragParams.dragPos - cexBodySq.trans) := by
  exact (drag_force_targeting dragParams 4 cexBodySq 0).2.1 rfl

/-! ### Finite sum evaluation helpers -/

theorem zmod4_sum {M : Type} [AddCommMonoid M] (f : ZMod 4 → M) :
    ∑ i : ZMod 4, f i = f 0 + f 1 + f 2 + f 3 := by
  rw [show (Finset.univ : Finset (ZMod 4)) = {0, 1, 2, 3} from by decide]
  rw [Finset.sum_insert (by decide), Finset.sum_insert (by decide),
    Finset.sum_insert (by decide), Finset.sum_singleton]
  rw [add_assoc, add_assoc]

theorem zmod2_sum {M : Type} [AddCommMonoid M] (f : ZMod 2 → M) :
    ∑ i : ZMod 2, f i = f 0 + f 1 := by
  rw [show (Finset.univ : Finset (ZMod 2)) = {0, 1} from by decide]
  rw [Finset.sum_insert (by decide), Finset.sum_singleton]

theorem sqPos0 : sqPos 0 = (1, 0) := rfl

theorem sqPos1 : sqPos 1 = (0, 1) := by
  rw [sqPos]; rw [if_neg (by decide), if_pos rfl]

theorem sqPos2 : sqPos 2 = (-1, 0) := by
  rw [sqPos]; rw [if_neg (by decide), if_neg (by decide), if_pos rfl]

theorem sqPos3 : sqPos 3 = (0, -1) := by
  rw [sqPos]; rw [if_neg (by decide), if_neg (by decide), if_neg (by decide)]

theorem shoelace_sq : shoelace 4 sqPos = 4 := by
  rw [shoelace, zmod4_sum]
  rw [show ((0 : ZMod 4) + 1) = 1 from by decide, show ((1 : ZMod 4) + 1) = 2 from by decide,
    show ((2 : ZMod 4) + 1) = 3 from by decide, show ((3 : ZMod 4) + 1) = 0 from by decide]
  rw [sqPos0, sqPos1, sqPos2, sqPos3, crossR, crossR, crossR, crossR]
  norm_num

theorem shoelace_sqrev : shoelace 4 (fun i => sqPos (-i)) = -4 := by
  rw [shoelace, zmod4_sum]
  rw [show ((0 : ZMod 4) + 1) = 1 from by decide, show ((1 : ZMod 4) + 1) = 2 from by decide,
    show ((2 : ZMod 4) + 1) = 3 from by decide, show ((3 : ZMod 4) + 1) = 0 from by decide,
    show (-(0 : ZMod 4)) = 0 from by decide, show (-(1 : ZMod 4)) = 3 from by decide,
    show (-(2 : ZMod 4)) = 2 from by decide, show (-(3 : ZMod 4)) = 1 from by decide]
  rw [sqPos0, sqPos1, sqPos2, sqPos3, crossR, crossR, crossR, crossR]
  norm_num

theorem area_sq : areaOf 4 cexBodySq.pos = 2 := by
  rw [show cexBodySq.pos = sqPos from rfl, areaOf, shoelace_sq]
  norm_num

theorem area_sqrev : areaOf 4 cexBodySqRev.pos = 2 := by
  rw [show cexBodySqRev.pos = (fun i => sqPos (-i)) from rfl, areaOf, shoelace_sqrev]
  norm_num

theorem edge_sq : cexBodySq.pos ((0 : ZMod 4) + 1) - cexBodySq.pos ((0 : ZMod 4) - 1) =
    ((0 : ℝ), (2 : ℝ)) := by
  rw [show ((0 : ZMod 4) + 1) = 1 from by decide, show ((0 : ZMod 4) - 1) = 3 from by decide,
    show cexBodySq.pos = sqPos from rfl, sqPos1, sqPos3]
  norm_num [Prod.ext_iff]

theorem edge_sqrev : cexBodySqRev.pos ((0 : ZMod 4) + 1) - cexBodySqRev.pos ((0 : ZMod 4) - 1) =
    ((0 : ℝ), (-2 : ℝ)) := by
  rw [show cexBodySqRev.pos = (fun i => sqPos (-i)) from rfl]
  simp only
  rw [show (-((0 : ZMod 4) + 1)) = 3 from by decide,
    show (-((0 : ZMod 4) - 1)) = 1 from by decide, sqPos1, sqPos3]
  norm_num [Prod.ext_iff]

theorem crossR_antisym (a b : ℝ × ℝ) : crossR a b = -crossR b a := by
  rw [crossR, crossR]; ring

/-- Reversing the winding of a ring negates its shoelace sum. -/
theorem shoelace_reverse (n : ℕ) [NeZero n] (pos : ZMod n → ℝ × ℝ) :
    shoelace n (fun j => pos (-j)) = -shoelace n pos := by
  rw [shoelace, shoelace]
  have h1 : ∑ i : ZMod n, crossR (pos (-i)) (pos (-(i + 1))) =
      ∑ k : ZMod n, crossR (pos (k + 1)) (pos k) := by
    apply Fintype.sum_equiv (Equiv.subLeft (-1 : ZMod n))
    intro i
    simp only [Equiv.subLeft_apply]
    have ha : -i = -1 - i + 1 := by ring
    have hb : -(i + 1) = -1 - i := by ring
    rw [ha, hb]
  calc ∑ i : ZMod n, crossR (pos (-i)) (pos (-(i + 1))) =
      ∑ k : ZMod n, crossR (pos (k + 1)) (pos k) := h1
    _ = ∑ k : ZMod n, -crossR (pos k) (pos (k + 1)) := by
        apply Finset.sum_congr rfl
        intro k _
        exact crossR_antisym _ _
    _ = -∑ k : ZMod n, crossR (pos k) (pos (k + 1)) := by
        rw [Finset.sum_neg_distrib]

/-- Reversing the winding leaves the absolute shoelace area unchanged. -/
theorem area_reverse (n : ℕ) [NeZero n] (pos : ZMod n → ℝ × ℝ) :
    areaOf n (fun j => pos (-j)) = areaOf n pos := by
  rw [areaOf, areaOf, shoelace_reverse, abs_neg]

/-! ### Claim C4 -/

/-- Claim C4 as frozen, refuted at a degenerate input: with all three
particles of a body at the same point, the covariances vanish, the
epsilon floor takes over the normaliser, and the output rotation is
(0, 0), whose squared norm is 0, not approximately 1 — so the rotation
is not ALWAYS unit-norm, only for non-degenerate configurations. -/
theorem shape_rotation_unit_cex :
    ((shapePose 3 (fun _ => ((0 : ℝ), (0 : ℝ))) (fun _ => (1, 0))).2.1) ^ 2 +
      ((shapePose 3 (fun _ => ((0 : ℝ), (0 : ℝ))) (fun _ => (1, 0))).2.2) ^ 2 = 0 ∧
    ((0 : ℝ) ≠ 1) := by
  have hC : centroid 3 (fun _ => ((0 : ℝ), (0 : ℝ))) = 0 := by
    simp [centroid, Prod.mk_zero_zero]
  have hA : covA 3 (fun _ => ((0 : ℝ), (0 : ℝ))) (fun _ => (1, 0)) = 0 := by
    rw [covA]
    apply Finset.sum_eq_zero
    intro i _
    rw [hC]
    simp
  have hB : covB 3 (fun _ => ((0 : ℝ), (0 : ℝ))) (fun _ => (1, 0)) = 0 := by
    rw [covB]
    apply Finset.sum_eq_zero
    intro i _
    rw [hC]
    simp
  constructor
  · have h1 : (shapePose 3 (fun _ => ((0 : ℝ), (0 : ℝ))) (fun _ => (1, 0))).2.1 =
        covA 3 (fun _ => ((0 : ℝ), (0 : ℝ))) (fun _ => (1, 0)) /
          poseLen (covA 3 (fun _ => ((0 : ℝ), (0 : ℝ))) (fun _ => (1, 0)))
            (covB 3 (fun _ => ((0 : ℝ), (0 : ℝ))) (fun _ => (1, 0))) := rfl
    have h2 : (shapePose 3 (fun _ => ((0 : ℝ), (0 : ℝ))) (fun _ => (1, 0))).2.2 =
        covB 3 (fun _ => ((0 : ℝ), (0 : ℝ))) (fun _ => (1, 0)) /
          poseLen (covA 3 (fun _ => ((0 : ℝ), (0 : ℝ))) (fun _ => (1, 0)))
            (covB 3 (fun _ => ((0 : ℝ), (0 : ℝ))) (fun _ => (1, 0))) := rfl
    rw [h1, h2, hA, hB]
    norm_num
  · norm_num

/-- Claim C4 (amended): the estimator outputs the centroid (n times the
output centroid is the sum of the positions), the rotation (A/len, B/len)
with len = max(hypot(A,B), 1e-6), and the rotation is exactly unit-norm
whenever hypot(A,B) clears the 1e-6 floor (for degenerate configurations
below the floor the rotation degenerates toward (0,0) instead). -/
theorem shape_pose_amended (n : ℕ) [NeZero n] (pos rest : ZMod n → ℝ × ℝ) :
    ((n : ℝ)) • (shapePose n pos rest).1 = ∑ i : ZMod n, pos i ∧
    (shapePose n pos rest).2 =
      (covA n pos rest / poseLen (covA n pos rest) (covB n pos rest),
       covB n pos rest / poseLen (covA n pos rest) (covB n pos rest)) ∧
    ((1 / 1000000 : ℝ) ≤ Real.sqrt (covA n pos rest ^ 2 + covB n pos rest ^ 2) →
      ((shapePose n pos rest).2.1) ^ 2 + ((shapePose n pos rest).2.2) ^ 2 = 1) := by
  refine ⟨?_, rfl, ?_⟩
  · rw [shapePose]
    exact smul_inv_smul₀ (Nat.cast_ne_zero.mpr (NeZero.ne n)) _
  · intro h
    have hS : 0 < covA n pos rest ^ 2 + covB n pos rest ^ 2 :=
      Real.sqrt_pos.mp (lt_of_lt_of_le (by norm_num) h)
    have hlen : poseLen (covA n pos rest) (covB n pos rest) =
        Real.sqrt (covA n pos rest ^ 2 + covB n pos rest ^ 2) := max_eq_left h
    show (covA n pos rest / poseLen _ _) ^ 2 + (covB n pos rest / poseLen _ _) ^ 2 = 1
    rw [div_pow, div_pow, hlen, Real.sq_sqrt hS.le, div_add_div_same, div_self hS.ne.symm]

theorem pose2Pos0 : pose2Pos 0 = (1, 0) := rfl

theorem pose2Pos1 : pose2Pos 1 = (-1, 0) := by
  rw [pose2Pos]; rw [if_neg (by decide)]

theorem pose2Rest0 : pose2Rest 0 = (1, 0) := rfl

theorem pose2Rest1 : pose2Rest 1 = (-1, 0) := by
  rw [pose2Rest]; rw [if_neg (by decide)]

theorem pose2_centroid : centroid 2 pose2Pos = 0 := by
  have hsum : pose2Pos 0 + pose2Pos 1 = 0 := by
    rw [pose2Pos0, pose2Pos1, Prod.mk_add_mk]
    norm_num [Prod.ext_iff]
  rw [centroid, zmod2_sum, hsum, smul_zero]

theorem pose2_covA : covA 2 pose2Pos pose2Rest = 2 := by
  rw [covA, zmod2_sum, pose2_centroid, pose2Pos0, pose2Pos1, pose2Rest0, pose2Rest1]
  norm_num

theorem pose2_covB : covB 2 pose2Pos pose2Rest = 0 := by
  rw [covB, zmod2_sum, pose2_centroid, pose2Pos0, pose2Pos1, pose2Rest0, pose2Rest1]
  norm_num

theorem pose2_sqrt : (1 / 1000000 : ℝ) ≤
    Real.sqrt (covA 2 pose2Pos pose2Rest ^ 2 + covB 2 pose2Pos pose2Rest ^ 2) := by
  rw [pose2_covA, pose2_covB]
  rw [show (2 : ℝ) ^ 2 + (0 : ℝ) ^ 2 = 2 ^ 2 by norm_num]
  rw [Real.sqrt_sq (by norm_num : (0 : ℝ) ≤ 2)]
  norm_num

/-- Witness for shape_pose_amended at a two-particle configuration with
hypot(A,B) = 2 above the floor. -/
theorem shape_pose_amended_witness :
    ((shapePose 2 pose2Pos pose2Rest).2.1) ^ 2 + ((shapePose 2 pose2Pos pose2Rest).2.2) ^ 2
      = 1 := by
  exact (shape_pose_amended 2 pose2Pos pose2Rest).2.2 pose2_sqrt

/-! ### Claim C5 -/

/-- Claim C5 as frozen, refuted at a concrete input: on the unit square
ring and its winding-reversed copy the absolute shoelace area is the
same (2 in both cases), yet the pressure contribution at particle 0
differs — reversing the winding flips the approximate normal, so the
pressure force is NOT left unchanged by the winding (its first component
is positive on the counterclockwise ring and negative on the reversed
one). -/
theorem pressure_winding_cex :
    areaOf 4 cexBodySqRev.pos = areaOf 4 cexBodySq.pos ∧
    pressureTerm cexParams 4 cexBodySq 0 ≠ pressureTerm cexParams 4 cexBodySqRev 0 := by
  refine ⟨by rw [area_sq, area_sqrev], ?_⟩
  intro hcontra
  have h1 : (pressureTerm cexParams 4 cexBodySq 0).1 =
      (pressureTerm cexParams 4 cexBodySqRev 0).1 := by rw [hcontra]
  have hpi := Real.pi_gt_three
  have hpress : (0 : ℝ) <
      cexParams.kPressure * (areaRest cexBodySq.radius - areaOf 4 cexBodySq.pos) /
        areaRest cexBodySq.radius := by
    rw [area_sq, show cexBodySq.radius = 1 from rfl, show cexParams.kPressure = 1 from rfl,
      areaRest]
    rw [show Real.pi * 1 ^ 2 = Real.pi by ring]
    apply div_pos (by linarith) (by linarith)
  have h2 : pressureTerm cexParams 4 cexBodySq 0 =
      ((cexParams.kPressure * (areaRest cexBodySq.radius - areaOf 4 cexBodySq.pos) /
        areaRest cexBodySq.radius) / ((4 : ℕ) : ℝ)) •
        normalizeR (((2 : ℝ), (0 : ℝ)) + ((1 / 10000 : ℝ), (1 / 10000 : ℝ))) := by
    simp only [pressureTerm]
    rw [edge_sq]
    norm_num
  have h3 : pressureTerm cexParams 4 cexBodySqRev 0 =
      ((cexParams.kPressure * (areaRest cexBodySqRev.radius - areaOf 4 cexBodySqRev.pos) /
        areaRest cexBodySqRev.radius) / ((4 : ℕ) : ℝ)) •
        normalizeR (((-2 : ℝ), (0 : ℝ)) + ((1 / 10000 : ℝ), (1 / 10000 : ℝ))) := by
    simp only [pressureTerm]
    rw [edge_sqrev]
    norm_num
  have hpressrev : (0 : ℝ) <
      cexParams.kPressure * (areaRest cexBodySqRev.radius - areaOf 4 cexBodySqRev.pos) /
        areaRest cexBodySqRev.radius := by
    rw [area_sqrev, show cexBodySqRev.radius = 1 from rfl, show cexParams.kPressure = 1 from rfl,
      areaRest]
    rw [show Real.pi * 1 ^ 2 = Real.pi by ring]
    apply div_pos (by linarith) (by linarith)
  have hwpos : (0 : ℝ) < vecNorm (((2 : ℝ), (0 : ℝ)) + ((1 / 10000 : ℝ), (1 / 10000 : ℝ))) := by
    apply vecNorm_pos_of_ne
    norm_num [Prod.ext_iff]
  have hwposr : (0 : ℝ) <
      vecNorm (((-2 : ℝ), (0 : ℝ)) + ((1 / 10000 : ℝ), (1 / 10000 : ℝ))) := by
    apply vecNorm_pos_of_ne
    norm_num [Prod.ext_iff]
  have hxpos : 0 < (pressureTerm cexParams 4 cexBodySq 0).1 := by
    rw [h2]
    simp only [normalizeR, Prod.smul_fst, smul_eq_mul, Prod.fst_add]
    apply mul_pos (div_pos hpress (by norm_num))
    apply mul_pos (inv_pos.mpr hwpos)
    norm_num
  have hxneg : (pressureTerm cexParams 4 cexBodySqRev 0).1 < 0 := by
    rw [h3]
    simp only [normalizeR, Prod.smul_fst, smul_eq_mul, Prod.fst_add]
    apply mul_neg_of_pos_of_neg (div_pos hpressrev (by norm_num))
    apply mul_neg_of_pos_of_neg (inv_pos.mpr hwposr)
    norm_num
  linarith

/-- Claim C5 (amended): the area is the absolute shoelace value, so
reversing the winding leaves the area and the press scalar unchanged
(but flips the approximate normal and with it the direction of the
pressure force); the contribution is press times the normalised
perpendicular of p_(i+1) - p_(i-1), offset by the degeneracy guard 1e-4
added to both components, divided by N; the normalised vector is
genuinely unit length whenever the guarded perpendicular is nonzero. -/
theorem pressure_term_amended (P : Params) (n : ℕ) [NeZero n] (B : BodyState n)
    (i : ZMod n) :
    areaOf n (fun j => B.pos (-j)) = areaOf n B.pos ∧
    pressureTerm P n B i =
      ((P.kPressure * (areaRest B.radius -
          (1 / 2) * |∑ j : ZMod n, ((B.pos j).1 * (B.pos (j + 1)).2 -
            (B.pos (j + 1)).1 * (B.pos j).2)|) / areaRest B.radius) / (n : ℝ)) •
        normalizeR (((B.pos (i + 1) - B.pos (i - 1)).2, -(B.pos (i + 1) - B.pos (i - 1)).1) +
          ((1 / 10000 : ℝ), (1 / 10000 : ℝ))) ∧
    ((((B.pos (i + 1) - B.pos (i - 1)).2, -(B.pos (i + 1) - B.pos (i - 1)).1) +
        ((1 / 10000 : ℝ), (1 / 10000 : ℝ))) ≠ 0 →
      vecNorm (normalizeR (((B.pos (i + 1) - B.pos (i - 1)).2,
        -(B.pos (i + 1) - B.pos (i - 1)).1) + ((1 / 10000 : ℝ), (1 / 10000 : ℝ)))) = 1) := by
  refine ⟨area_reverse n B.pos, ?_, ?_⟩
  · simp only [pressureTerm, areaOf, shoelace, crossR]
    have hsum : ∑ x : ZMod n, ((B.pos x).1 * (B.pos (x + 1)).2 - (B.pos x).2 * (B.pos (x + 1)).1)
        = ∑ j : ZMod n, ((B.pos j).1 * (B.pos (j + 1)).2 - (B.pos (j + 1)).1 * (B.pos j).2) := by
      apply Finset.sum_congr rfl
      intro x _
      ring
    rw [hsum]
  · intro h
    exact norm_normalizeR _ h

/-- Witness for pressure_term_amended: the guarded perpendicular at
particle 0 of the square body is nonzero and its normalisation is unit
length. -/
theorem pressure_term_amended_witness :
    vecNorm (normalizeR (((cexBodySq.pos ((0 : ZMod 4) + 1) -
      cexBodySq.pos ((0 : ZMod 4) - 1)).2,
      -(cexBodySq.pos ((0 : ZMod 4) + 1) - cexBodySq.pos ((0 : ZMod 4) - 1)).1) +
      ((1 / 10000 : ℝ), (1 / 10000 : ℝ)))) = 1 := by
  apply (pressure_term_amended cexParams 4 cexBodySq 0).2.2
  rw [edge_sq]
  norm_num [Prod.ext_iff]

theorem genRest_thetaZ (r : ℝ) (i : ZMod 32) :
    genRest 32 r i = (r * Real.cos (thetaZ i), r * Real.sin (thetaZ i)) := rfl

theorem thetaZ_add (i j : ZMod 32) : ∃ m : ℤ,
    thetaZ (i + j) = thetaZ i + thetaZ j + m * (2 * Real.pi) := by
  have hval : (i + j).val = (i.val + j.val) % 32 := ZMod.val_add i j
  set k : ℕ := (i.val + j.val) / 32 with hk
  have hle : 32 * k ≤ i.val + j.val := by omega
  have hmod : (i.val + j.val) % 32 = (i.val + j.val) - 32 * k := by omega
  refine ⟨-(k : ℤ), ?_⟩
  rw [thetaZ, hval, hmod, Nat.cast_sub hle, thetaZ, thetaZ]
  push_cast
  ring

theorem cos_thetaZ_add (i j : ZMod 32) :
    Real.cos (thetaZ (i + j)) = Real.cos (thetaZ i + thetaZ j) := by
  obtain ⟨m, hm⟩ := thetaZ_add i j
  rw [hm, Real.cos_add_int_mul_two_pi]

theorem sin_thetaZ_add (i j : ZMod 32) :
    Real.sin (thetaZ (i + j)) = Real.sin (thetaZ i + thetaZ j) := by
  obtain ⟨m, hm⟩ := thetaZ_add i j
  rw [hm, Real.sin_add_int_mul_two_pi]

theorem rest_chord_sq (r : ℝ) (i j : ZMod 32) :
    ((genRest 32 r (i + j)).1 - (genRest 32 r i).1) ^ 2 +
      ((genRest 32 r (i + j)).2 - (genRest 32 r i).2) ^ 2 =
      2 * r ^ 2 * (1 - Real.cos (thetaZ j)) := by
  rw [genRest_thetaZ, genRest_thetaZ]
  simp only
  rw [cos_thetaZ_add, sin_thetaZ_add]
  have h1 := Real.sin_sq_add_cos_sq (thetaZ i)
  have h2 := Real.sin_sq_add_cos_sq (thetaZ i + thetaZ j)
  have h3 : Real.cos (thetaZ i + thetaZ j) * Real.cos (thetaZ i) +
      Real.sin (thetaZ i + thetaZ j) * Real.sin (thetaZ i) = Real.cos (thetaZ j) := by
    rw [← Real.cos_sub]
    ring_nf
  nlinarith [h1, h2, h3]

theorem thetaZ_nonneg (j : ZMod 32) : 0 ≤ thetaZ j := by
  rw [thetaZ]
  positivity

theorem thetaZ_half_le_pi (j : ZMod 32) : thetaZ j / 2 ≤ Real.pi := by
  rw [thetaZ]
  have hval : (j.val : ℝ) ≤ 32 := by
    have := ZMod.val_lt j
    have h2 : (j.val : ℝ) < ((32 : ℕ) : ℝ) := by exact_mod_cast this
    push_cast at h2
    linarith
  have hpi := Real.pi_pos
  rw [div_le_iff₀ (by norm_num : (0 : ℝ) < 2)]
  push_cast
  nlinarith

theorem rest_chord_norm (r : ℝ) (hr : 0 ≤ r) (i j : ZMod 32) :
    vecNorm (genRest 32 r (i + j) - genRest 32 r i) = 2 * r * Real.sin (thetaZ j / 2) := by
  have hsub1 : (genRest 32 r (i + j) - genRest 32 r i).1 =
      (genRest 32 r (i + j)).1 - (genRest 32 r i).1 := rfl
  have hsub2 : (genRest 32 r (i + j) - genRest 32 r i).2 =
      (genRest 32 r (i + j)).2 - (genRest 32 r i).2 := rfl
  rw [vecNorm, hsub1, hsub2, rest_chord_sq]
  have hhalf : 1 - Real.cos (thetaZ j) = 2 * Real.sin (thetaZ j / 2) ^ 2 := by
    have h := Real.sin_sq_eq_half_sub (thetaZ j / 2)
    rw [show 2 * (thetaZ j / 2) = thetaZ j by ring] at h
    linarith
  have hsin : 0 ≤ Real.sin (thetaZ j / 2) := by
    apply Real.sin_nonneg_of_nonneg_of_le_pi
    · have := thetaZ_nonneg j
      linarith
    · exact thetaZ_half_le_pi j
  rw [hhalf, show 2 * r ^ 2 * (2 * Real.sin (thetaZ j / 2) ^ 2) =
    (2 * r * Real.sin (thetaZ j / 2)) ^ 2 by ring]
  exact Real.sqrt_sq (by positivity)

theorem thetaZ_16 : thetaZ (16 : ZMod 32) = Real.pi := by
  rw [thetaZ, show ((16 : ZMod 32).val) = 16 from by decide]
  push_cast
  ring

theorem cos_thetaZ_shift (i : ZMod 32) :
    Real.cos (thetaZ (i + 16)) = -Real.cos (thetaZ i) := by
  rw [cos_thetaZ_add, thetaZ_16, Real.cos_add_pi]

theorem sin_thetaZ_shift (i : ZMod 32) :
    Real.sin (thetaZ (i + 16)) = -Real.sin (thetaZ i) := by
  rw [sin_thetaZ_add, thetaZ_16, Real.sin_add_pi]

theorem sum_cos_thetaZ : ∑ i : ZMod 32, Real.cos (thetaZ i) = 0 := by
  have hS := Equiv.sum_comp (Equiv.addRight (16 : ZMod 32)) (fun i => Real.cos (thetaZ i))
  simp only [Equiv.coe_addRight] at hS
  have h2 : ∑ i : ZMod 32, Real.cos (thetaZ (i + 16)) =
      -∑ i : ZMod 32, Real.cos (thetaZ i) := by
    rw [← Finset.sum_neg_distrib]
    exact Finset.sum_congr rfl (fun i _ => cos_thetaZ_shift i)
  rw [h2] at hS
  linarith

theorem sum_sin_thetaZ : ∑ i : ZMod 32, Real.sin (thetaZ i) = 0 := by
  have hS := Equiv.sum_comp (Equiv.addRight (16 : ZMod 32)) (fun i => Real.sin (thetaZ i))
  simp only [Equiv.coe_addRight] at hS
  have h2 : ∑ i : ZMod 32, Real.sin (thetaZ (i + 16)) =
      -∑ i : ZMod 32, Real.sin (thetaZ i) := by
    rw [← Finset.sum_neg_distrib]
    exact Finset.sum_congr rfl (fun i _ => sin_thetaZ_shift i)
  rw [h2] at hS
  linarith

theorem sum_genRest (r : ℝ) : ∑ i : ZMod 32, genRest 32 r i = 0 := by
  have h1 : (∑ i : ZMod 32, genRest 32 r i).1 = 0 := by
    rw [Prod.fst_sum]
    calc ∑ i : ZMod 32, (genRest 32 r i).1 = ∑ i : ZMod 32, r * Real.cos (thetaZ i) := rfl
      _ = r * ∑ i : ZMod 32, Real.cos (thetaZ i) := by rw [Finset.mul_sum]
      _ = 0 := by rw [sum_cos_thetaZ, mul_zero]
  have h2 : (∑ i : ZMod 32, genRest 32 r i).2 = 0 := by
    rw [Prod.snd_sum]
    calc ∑ i : ZMod 32, (genRest 32 r i).2 = ∑ i : ZMod 32, r * Real.sin (thetaZ i) := rfl
      _ = r * ∑ i : ZMod 32, Real.sin (thetaZ i) := by rw [Finset.mul_sum]
      _ = 0 := by rw [sum_sin_thetaZ, mul_zero]
  exact Prod.ext h1 h2

theorem centroid_rest (c : ℝ × ℝ) (r : ℝ) :
    centroid 32 (fun i => c + genRest 32 r i) = c := by
  rw [centroid]
  have hsum : ∑ i : ZMod 32, (c + genRest 32 r i) = (32 : ℕ) • c := by
    rw [Finset.sum_add_distrib, sum_genRest, add_zero, Finset.sum_const,
      Finset.card_univ, ZMod.card]
  rw [hsum]
  have hcast : (32 : ℕ) • c = ((32 : ℕ) : ℝ) • c := (Nat.cast_smul_eq_nsmul ℝ 32 c).symm
  rw [hcast]
  rw [inv_smul_smul₀ (by norm_num : ((32 : ℕ) : ℝ) ≠ 0)]

theorem covA_rest (c : ℝ × ℝ) (r : ℝ) :
    covA 32 (fun i => c + genRest 32 r i) (genRest 32 r) = 32 * r ^ 2 := by
  simp only [covA, centroid_rest]
  have hterm : ∀ i : ZMod 32,
      ((c + genRest 32 r i - c).1 * (genRest 32 r i).1 +
        (c + genRest 32 r i - c).2 * (genRest 32 r i).2) = r ^ 2 := by
    intro i
    rw [add_sub_cancel_left, genRest_thetaZ]
    simp only
    nlinarith [Real.sin_sq_add_cos_sq (thetaZ i)]
  rw [Finset.sum_congr rfl (fun i _ => hterm i)]
  rw [Finset.sum_const, Finset.card_univ, ZMod.card, nsmul_eq_mul]
  norm_num

theorem covB_rest (c : ℝ × ℝ) (r : ℝ) :
    covB 32 (fun i => c + genRest 32 r i) (genRest 32 r) = 0 := by
  rw [covB, centroid_rest]
  apply Finset.sum_eq_zero
  intro i _
  simp only [add_sub_cancel_left]
  ring

theorem pose_rest (c : ℝ × ℝ) (r : ℝ) (hr : 1 / 10 ≤ r) :
    shapePose 32 (fun i => c + genRest 32 r i) (genRest 32 r) = (c, (1, 0)) := by
  have hA := covA_rest c r
  have hB := covB_rest c r
  have hr2 : (0 : ℝ) < 32 * r ^ 2 := by nlinarith
  have hlen : poseLen (covA 32 (fun i => c + genRest 32 r i) (genRest 32 r))
      (covB 32 (fun i => c + genRest 32 r i) (genRest 32 r)) = 32 * r ^ 2 := by
    rw [poseLen, hA, hB]
    rw [show (32 * r ^ 2) ^ 2 + (0 : ℝ) ^ 2 = (32 * r ^ 2) ^ 2 by ring]
    rw [Real.sqrt_sq hr2.le]
    rw [max_eq_left]
    nlinarith
  rw [shapePose, centroid_rest, hlen, hA, hB]
  rw [div_self hr2.ne.symm, zero_div]

theorem shoelace_rest (c : ℝ × ℝ) (r : ℝ) :
    shoelace 32 (fun i => c + genRest 32 r i) = 32 * r ^ 2 * Real.sin (Real.pi / 16) := by
  rw [shoelace]
  have hterm : ∀ x y : ℝ × ℝ, crossR (c + x) (c + y) =
      crossR x y + crossR c y - crossR c x := by
    intro x y
    simp only [crossR, Prod.fst_add, Prod.snd_add]
    ring
  have hsplit : ∑ i : ZMod 32, crossR ((fun i => c + genRest 32 r i) i)
      ((fun i => c + genRest 32 r i) (i + 1)) =
      (∑ i : ZMod 32, crossR (genRest 32 r i) (genRest 32 r (i + 1))) +
      (∑ i : ZMod 32, crossR c (genRest 32 r (i + 1))) -
      (∑ i : ZMod 32, crossR c (genRest 32 r i)) := by
    rw [← Finset.sum_add_distrib, ← Finset.sum_sub_distrib]
    apply Finset.sum_congr rfl
    intro i _
    exact hterm _ _
  rw [hsplit]
  have hshift : ∑ i : ZMod 32, crossR c (genRest 32 r (i + 1)) =
      ∑ i : ZMod 32, crossR c (genRest 32 r i) := by
    have := Equiv.sum_comp (Equiv.addRight (1 : ZMod 32))
      (fun k => crossR c (genRest 32 r k))
    simpa using this
  rw [hshift]
  have hval1 : thetaZ (1 : ZMod 32) = Real.pi / 16 := by
    rw [thetaZ, show ((1 : ZMod 32).val) = 1 from by decide]
    push_cast
    ring
  have hmain : ∀ i : ZMod 32, crossR (genRest 32 r i) (genRest 32 r (i + 1)) =
      r ^ 2 * Real.sin (Real.pi / 16) := by
    intro i
    rw [genRest_thetaZ, genRest_thetaZ, crossR]
    simp only
    rw [cos_thetaZ_add, sin_thetaZ_add, hval1]
    rw [show Real.pi / 16 = (thetaZ i + Real.pi / 16) - thetaZ i by ring, Real.sin_sub]
    ring_nf
  calc (∑ i : ZMod 32, crossR (genRest 32 r i) (genRest 32 r (i + 1))) +
      (∑ i : ZMod 32, crossR c (genRest 32 r i)) -
      (∑ i : ZMod 32, crossR c (genRest 32 r i))
      = ∑ i : ZMod 32, crossR (genRest 32 r i) (genRest 32 r (i + 1)) := by ring
    _ = ∑ i : ZMod 32, r ^ 2 * Real.sin (Real.pi / 16) :=
        Finset.sum_congr rfl (fun i _ => hmain i)
    _ = (32 : ℕ) • (r ^ 2 * Real.sin (Real.pi / 16)) := by
        rw [Finset.sum_const, Finset.card_univ, ZMod.card]
    _ = 32 * r ^ 2 * Real.sin (Real.pi / 16) := by rw [nsmul_eq_mul]; push_cast; ring

theorem wall_zero (P : Params) (pos vel : ℝ × ℝ)
    (hx : |pos.1| ≤ P.wallDistance) (hy : |pos.2| ≤ P.wallDistance) :
    wallForce P pos vel = 0 := by
  obtain ⟨hx1, hx2⟩ := abs_le.mp hx
  obtain ⟨hy1, hy2⟩ := abs_le.mp hy
  rw [wallForce]
  rw [if_neg (not_lt.mpr hx2), if_neg (not_lt.mpr hx1), if_neg (not_lt.mpr hy2),
    if_neg (not_lt.mpr hy1)]
  norm_num [Prod.ext_iff]

theorem vecNorm_perp (v : ℝ × ℝ) : vecNorm ((v.2, -v.1)) = vecNorm v := by
  rw [vecNorm, vecNorm]
  simp only
  ring_nf

theorem vecNorm_zero_eq : vecNorm 0 = 0 := by
  rw [vecNorm]
  simp [Real.sqrt_zero]

theorem pi32_ub : Real.pi / 32 < 0.09817479 := by
  have := Real.pi_lt_d6
  linarith

theorem pi32_lb : (0.09817475 : ℝ) < Real.pi / 32 := by
  have := Real.pi_gt_d6
  linarith

theorem pi16_ub : Real.pi / 16 < 0.19634957 := by
  have := Real.pi_lt_d6
  linarith

theorem pi16_lb : (0.1963495 : ℝ) < Real.pi / 16 := by
  have := Real.pi_gt_d6
  linarith

theorem gap32_ub : Real.pi / 32 - Real.sin (Real.pi / 32) < 0.00023657 := by
  have hx_pos : 0 < Real.pi / 32 := by positivity
  have hx_le1 : Real.pi / 32 ≤ 1 := by
    have := pi32_ub
    linarith
  have hcube := Real.sin_gt_sub_cube hx_pos hx_le1
  have hcube_ub : (Real.pi / 32) ^ 3 < 0.00094625 := by
    calc (Real.pi / 32) ^ 3 < (0.09817479 : ℝ) ^ 3 := by
          apply pow_lt_pow_left₀ pi32_ub (by positivity) (by norm_num)
      _ < 0.00094625 := by norm_num
  linarith

theorem gap32_nonneg : 0 ≤ Real.pi / 32 - Real.sin (Real.pi / 32) := by
  have := Real.sin_lt (show (0 : ℝ) < Real.pi / 32 by positivity)
  linarith

theorem gap16_ub : Real.pi / 16 - Real.sin (Real.pi / 16) < 0.0018926 := by
  have hx_pos : 0 < Real.pi / 16 := by positivity
  have hx_le1 : Real.pi / 16 ≤ 1 := by
    have := pi16_ub
    linarith
  have hcube := Real.sin_gt_sub_cube hx_pos hx_le1
  have hcube_ub : (Real.pi / 16) ^ 3 < 0.0075702 := by
    calc (Real.pi / 16) ^ 3 < (0.19634957 : ℝ) ^ 3 := by
          apply pow_lt_pow_left₀ pi16_ub (by positivity) (by norm_num)
      _ < 0.0075702 := by norm_num
  linarith

theorem gap16_nonneg : 0 ≤ Real.pi / 16 - Real.sin (Real.pi / 16) := by
  have := Real.sin_lt (show (0 : ℝ) < Real.pi / 16 by positivity)
  linarith

theorem sin32_lb : (0.0979 : ℝ) < Real.sin (Real.pi / 32) := by
  have := gap32_ub
  have := pi32_lb
  linarith

theorem sin16_lb : (0.194 : ℝ) < Real.sin (Real.pi / 16) := by
  have := gap16_ub
  have := pi16_lb
  linarith

theorem sin16_pos : 0 < Real.sin (Real.pi / 16) := by
  have := sin16_lb
  linarith

theorem springContribution_zero_vel_norm (P : Params) (n : ℕ) (r : ℝ) (pa pb : ℝ × ℝ)
    (hd : 1 / 1000000 < vecNorm (pb - pa)) :
    vecNorm (springContribution P n r pa 0 pb 0) =
      |P.kSpring * (vecNorm (pb - pa) - restLen n r)| := by
  have hpos : 0 < vecNorm (pb - pa) := lt_trans (by norm_num) hd
  simp only [springContribution]
  rw [if_pos hd]
  have h0 : (0 : ℝ × ℝ) - 0 = 0 := sub_zero 0
  rw [h0]
  have hdot : dotR ((vecNorm (pb - pa))⁻¹ • (pb - pa)) 0 = 0 := by
    rw [dotR]
    simp
  rw [hdot, mul_zero, add_zero, vecNorm_smul, vecNorm_smul, abs_inv, abs_of_pos hpos]
  field_simp

set_option maxHeartbeats 1000000 in
/-- Claim C7: a 32-point body placed exactly on its rest shape (positions
equal to the generated rest offsets plus a fixed center), with zero
velocities, zero gravity, away from the walls, not the drag target, with
the default stiffness values (kSpring 40, kPressure 80, kShape 300) and
the pose taken from the estimator on those same positions, accumulates on
every particle a net force of magnitude at most 1e-4 times the stiffness
scale kSpring + kPressure + kShape = 420 (the proved bound is 0.0336
against the allowance 0.042); this holds despite the rest length being
the arc length while the neighbour distance is the chord (second
conjunct) and despite the rest-shape polygon area lying below pi r^2
(third conjunct) — those two discretisation gaps are exactly what keeps
the residual force nonzero. -/
theorem rest_shape_equilibrium (r : ℝ) (c : ℝ × ℝ) (P : Params) (B : BodyState 32)
    (i : ZMod 32)
    (hr1 : 1 / 10 ≤ r) (hr2 : r ≤ 1 / 4)
    (hcx : |c.1| + r ≤ P.wallDistance) (hcy : |c.2| + r ≤ P.wallDistance)
    (hks : P.kSpring = 40) (hkp : P.kPressure = 80) (hksh : P.kShape = 300)
    (hg : P.gravity = 0)
    (hrad : B.radius = r) (hidx : B.bodyIdx ≠ P.dragBody)
    (hrest : B.rest = genRest 32 r)
    (hpos : B.pos = fun j => c + genRest 32 r j)
    (hvel : B.vel = fun _ => 0)
    (htrans : B.trans = (shapePose 32 B.pos B.rest).1)
    (hrot : B.rot = (shapePose 32 B.pos B.rest).2) :
    vecNorm (totalForce P 32 B i) ≤ (1 / 10000) * (P.kSpring + P.kPressure + P.kShape) ∧
    vecNorm (B.pos (i + 1) - B.pos i) < restLen 32 r ∧
    areaOf 32 B.pos < areaRest r := by
  have hrpos : (0 : ℝ) < r := lt_of_lt_of_le (by norm_num) hr1
  have hpigt := Real.pi_gt_d6
  have hpilt := Real.pi_lt_d6
  -- the pose computed from the rest configuration is the exact rigid pose
  have hpose : shapePose 32 B.pos B.rest = (c, (1, 0)) := by
    rw [hpos, hrest]
    exact pose_rest c r hr1
  have htr : B.trans = c := by rw [htrans, hpose]
  have hro : B.rot = ((1 : ℝ), (0 : ℝ)) := by rw [hrot, hpose]
  -- shape-matching term vanishes
  have hshape : shapeTerm P 32 B i = 0 := by
    simp only [shapeTerm, hro, htr, hrest, hpos, one_mul, zero_mul, sub_zero, zero_add]
    rw [Prod.mk.eta]
    rw [show genRest 32 r i + c - (c + genRest 32 r i) = 0 by ring, smul_zero]
  -- drag term vanishes
  have hdrag : dragTerm P 32 B = (0, 0) := by rw [dragTerm, if_neg hidx]
  -- wall force vanishes
  have hwall : wallForce P (B.pos i) (B.vel i) = 0 := by
    apply wall_zero
    · rw [hpos]
      have h1 : ((fun j => c + genRest 32 r j) i).1 = c.1 + r * Real.cos (thetaZ i) := rfl
      rw [h1]
      have hc1 := Real.abs_cos_le_one (thetaZ i)
      calc |c.1 + r * Real.cos (thetaZ i)| ≤ |c.1| + |r * Real.cos (thetaZ i)| := abs_add _ _
        _ = |c.1| + r * |Real.cos (thetaZ i)| := by rw [abs_mul, abs_of_pos hrpos]
        _ ≤ |c.1| + r := by nlinarith
        _ ≤ P.wallDistance := hcx
    · rw [hpos]
      have h1 : ((fun j => c + genRest 32 r j) i).2 = c.2 + r * Real.sin (thetaZ i) := rfl
      rw [h1]
      have hc1 := Real.abs_sin_le_one (thetaZ i)
      calc |c.2 + r * Real.sin (thetaZ i)| ≤ |c.2| + |r * Real.sin (thetaZ i)| := abs_add _ _
        _ = |c.2| + r * |Real.sin (thetaZ i)| := by rw [abs_mul, abs_of_pos hrpos]
        _ ≤ |c.2| + r := by nlinarith
        _ ≤ P.wallDistance := hcy
  -- chord lengths
  have hchordp : vecNorm (B.pos (i + 1) - B.pos i) = 2 * r * Real.sin (Real.pi / 32) := by
    rw [hpos]
    have hdiff : ((fun j => c + genRest 32 r j) (i + 1)) - ((fun j => c + genRest 32 r j) i) =
        genRest 32 r (i + 1) - genRest 32 r i := by
      simp only
      ring
    rw [hdiff, rest_chord_norm r hrpos.le i 1]
    rw [show thetaZ (1 : ZMod 32) / 2 = Real.pi / 32 by
      rw [thetaZ, show ((1 : ZMod 32).val) = 1 from by decide]; push_cast; ring]
  have hchordm : vecNorm (B.pos (i - 1) - B.pos i) = 2 * r * Real.sin (Real.pi / 32) := by
    rw [hpos]
    have hdiff : ((fun j => c + genRest 32 r j) (i - 1)) - ((fun j => c + genRest 32 r j) i) =
        genRest 32 r (i + (-1)) - genRest 32 r i := by
      simp only
      rw [show (i - 1 : ZMod 32) = i + (-1) from sub_eq_add_neg i 1]
      ring
    rw [hdiff, rest_chord_norm r hrpos.le i (-1)]
    have hval31 : thetaZ (-1 : ZMod 32) / 2 = Real.pi - Real.pi / 32 := by
      rw [thetaZ, show ((-1 : ZMod 32).val) = 31 from by decide]
      push_cast
      ring
    rw [hval31, Real.sin_pi_sub]
  have hd0_guard : (1 / 1000000 : ℝ) < 2 * r * Real.sin (Real.pi / 32) := by
    have := sin32_lb
    nlinarith
  have hv : ∀ j : ZMod 32, B.vel j = 0 := fun j => by rw [hvel]
  -- spring contributions have norm |Fs|
  have hsp1 : vecNorm (springContribution P 32 B.radius (B.pos i) (B.vel i)
      (B.pos (i + 1)) (B.vel (i + 1))) =
      |P.kSpring * (2 * r * Real.sin (Real.pi / 32) - restLen 32 r)| := by
    rw [hv i, hv (i + 1), hrad,
      springContribution_zero_vel_norm P 32 r (B.pos i) (B.pos (i + 1)) (by
        rw [hchordp]; exact hd0_guard), hchordp]
  have hsp2 : vecNorm (springContribution P 32 B.radius (B.pos i) (B.vel i)
      (B.pos (i - 1)) (B.vel (i - 1))) =
      |P.kSpring * (2 * r * Real.sin (Real.pi / 32) - restLen 32 r)| := by
    rw [hv i, hv (i - 1), hrad,
      springContribution_zero_vel_norm P 32 r (B.pos i) (B.pos (i - 1)) (by
        rw [hchordm]; exact hd0_guard), hchordm]
  -- numeric bound on |Fs|
  have hFs_num : |P.kSpring * (2 * r * Real.sin (Real.pi / 32) - restLen 32 r)| ≤ 0.004732 := by
    rw [hks, restLen]
    have hgap := gap32_ub
    have hgap0 := gap32_nonneg
    have habs : |(40 : ℝ) * (2 * r * Real.sin (Real.pi / 32) - 2 * Real.pi * r / ((32 : ℕ) : ℝ))|
        = 40 * (2 * r * (Real.pi / 32 - Real.sin (Real.pi / 32))) := by
      rw [abs_of_nonpos (by push_cast; nlinarith)]
      push_cast
      ring
    rw [habs]
    nlinarith
  have hspring_le : vecNorm (springTerm P 32 B i) ≤ 0.009464 := by
    rw [springTerm]
    calc vecNorm (springContribution P 32 B.radius (B.pos i) (B.vel i)
          (B.pos (i - 1)) (B.vel (i - 1)) +
        springContribution P 32 B.radius (B.pos i) (B.vel i)
          (B.pos (i + 1)) (B.vel (i + 1)))
        ≤ vecNorm (springContribution P 32 B.radius (B.pos i) (B.vel i)
            (B.pos (i - 1)) (B.vel (i - 1))) +
          vecNorm (springContribution P 32 B.radius (B.pos i) (B.vel i)
            (B.pos (i + 1)) (B.vel (i + 1))) := vecNorm_add_le _ _
      _ ≤ 0.004732 + 0.004732 := by
          rw [hsp1, hsp2]
          linarith [hFs_num]
      _ ≤ 0.009464 := by norm_num
  -- area at the rest shape
  have harea : areaOf 32 B.pos = 16 * r ^ 2 * Real.sin (Real.pi / 16) := by
    rw [hpos, areaOf, shoelace_rest]
    rw [abs_of_pos (mul_pos (mul_pos (by norm_num : (0 : ℝ) < 32) (pow_pos hrpos 2))
      sin16_pos)]
    ring
  -- press scalar
  have hpi0 : Real.pi ≠ 0 := ne_of_gt Real.pi_pos
  have hpress_eq : P.kPressure * (areaRest B.radius - areaOf 32 B.pos) / areaRest B.radius =
      1280 * (Real.pi / 16 - Real.sin (Real.pi / 16)) / Real.pi := by
    rw [hkp, hrad, harea, areaRest]
    field_simp
    ring
  have hpress_nonneg : 0 ≤ P.kPressure * (areaRest B.radius - areaOf 32 B.pos) /
      areaRest B.radius := by
    rw [hpress_eq]
    apply div_nonneg _ Real.pi_pos.le
    nlinarith [gap16_nonneg]
  have hpress_ub : P.kPressure * (areaRest B.radius - areaOf 32 B.pos) / areaRest B.radius
      ≤ 0.7712 := by
    rw [hpress_eq]
    rw [div_le_iff₀ Real.pi_pos]
    linarith [gap16_ub]
  -- the guarded perpendicular is nonzero
  have hedge_norm : vecNorm (B.pos (i + 1) - B.pos (i - 1)) =
      2 * r * Real.sin (Real.pi / 16) := by
    rw [hpos]
    have hdiff : ((fun j => c + genRest 32 r j) (i + 1)) -
        ((fun j => c + genRest 32 r j) (i - 1)) =
        genRest 32 r ((i - 1) + 2) - genRest 32 r (i - 1) := by
      simp only
      rw [show (i - 1 + 2 : ZMod 32) = i + 1 by ring]
      ring
    rw [hdiff, rest_chord_norm r hrpos.le (i - 1) 2]
    rw [show thetaZ (2 : ZMod 32) / 2 = Real.pi / 16 by
      rw [thetaZ, show ((2 : ZMod 32).val) = 2 from by decide]; push_cast; ring]
  have heps_norm : vecNorm ((1 / 10000 : ℝ), (1 / 10000 : ℝ)) ≤ 0.00015 := by
    rw [vecNorm]
    calc Real.sqrt (((1 / 10000 : ℝ), (1 / 10000 : ℝ)).1 ^ 2 +
          ((1 / 10000 : ℝ), (1 / 10000 : ℝ)).2 ^ 2)
        ≤ Real.sqrt ((0.00015 : ℝ) ^ 2) := by
          apply Real.sqrt_le_sqrt
          norm_num
      _ = 0.00015 := Real.sqrt_sq (by norm_num)
  have hw_pos : 0 < vecNorm (((B.pos (i + 1) - B.pos (i - 1)).2,
      -(B.pos (i + 1) - B.pos (i - 1)).1) + ((1 / 10000 : ℝ), (1 / 10000 : ℝ))) := by
    have hsub := sub_vecNorm_le_add ((B.pos (i + 1) - B.pos (i - 1)).2,
      -(B.pos (i + 1) - B.pos (i - 1)).1) ((1 / 10000 : ℝ), (1 / 10000 : ℝ))
    rw [vecNorm_perp, hedge_norm] at hsub
    have := sin16_lb
    nlinarith [heps_norm]
  have hw_ne : (((B.pos (i + 1) - B.pos (i - 1)).2,
      -(B.pos (i + 1) - B.pos (i - 1)).1) + ((1 / 10000 : ℝ), (1 / 10000 : ℝ))) ≠ 0 := by
    intro hzero
    rw [hzero, vecNorm_zero_eq] at hw_pos
    exact lt_irrefl 0 hw_pos
  have hpterm : vecNorm (pressureTerm P 32 B i) ≤ 0.0241 := by
    simp only [pressureTerm]
    rw [vecNorm_smul, norm_normalizeR _ hw_ne, mul_one]
    rw [abs_of_nonneg (div_nonneg hpress_nonneg (by norm_num))]
    rw [div_le_iff₀ (by norm_num : (0 : ℝ) < ((32 : ℕ) : ℝ))]
    push_cast
    nlinarith [hpress_ub]
  -- assemble
  have hforce_eq : totalForce P 32 B i = springTerm P 32 B i + pressureTerm P 32 B i := by
    rw [totalForce, baseForce, hg, hwall, hshape, hdrag]
    simp [Prod.mk_zero_zero]
  refine ⟨?_, ?_, ?_⟩
  · calc vecNorm (totalForce P 32 B i)
        = vecNorm (springTerm P 32 B i + pressureTerm P 32 B i) := by rw [hforce_eq]
      _ ≤ vecNorm (springTerm P 32 B i) + vecNorm (pressureTerm P 32 B i) :=
          vecNorm_add_le _ _
      _ ≤ 0.009464 + 0.0241 := add_le_add hspring_le hpterm
      _ ≤ (1 / 10000) * (P.kSpring + P.kPressure + P.kShape) := by
          rw [hks, hkp, hksh]
          norm_num
  · rw [hchordp, restLen]
    have hsinlt := Real.sin_lt (show (0 : ℝ) < Real.pi / 32 by positivity)
    push_cast
    nlinarith
  · rw [harea, areaRest]
    have hsinlt := Real.sin_lt (show (0 : ℝ) < Real.pi / 16 by positivity)
    nlinarith [mul_pos (pow_pos hrpos 2) (sub_pos.mpr hsinlt)]

/-- Witness for rest_shape_equilibrium: the default-valued parameter set
acting on the radius-0.25 body at the origin. -/
theorem rest_shape_equilibrium_witness :
    vecNorm (totalForce eqParams 32 eqBody 0) ≤
      (1 / 10000) * (eqParams.kSpring + eqParams.kPressure + eqParams.kShape) ∧
    vecNorm (eqBody.pos (0 + 1) - eqBody.pos 0) < restLen 32 (1 / 4) ∧
    areaOf 32 eqBody.pos < areaRest (1 / 4) := by
  exact rest_shape_equilibrium (1 / 4) ((0 : ℝ), (0 : ℝ)) eqParams eqBody 0
    (by norm_num) (by norm_num)
    (by norm_num [eqParams]) (by norm_num [eqParams])
    rfl rfl rfl rfl
    rfl (by decide) rfl rfl rfl rfl rfl

end SoftBody
